import Mathlib

/-!
Verification of the cluster-supervision and MMFiles storage core of the
repository.  All definitions are shallow embeddings of the C++ sources
(`Supervision.cpp`, `FailedServer.cpp`, `MMFilesCollection.cpp`,
`AddFollower.cpp`, `RemoveServer.cpp` and the accompanying headers);
functions that live outside the given sources are explicitly marked as
modelled from the specification.
-/

namespace Supervision

/-- Health status constant `Supervision::HEALTH_STATUS_GOOD`. -/
def HEALTH_STATUS_GOOD : String := "GOOD"

/-- Health status constant `Supervision::HEALTH_STATUS_BAD`. -/
def HEALTH_STATUS_BAD : String := "BAD"

/-- Health status constant `Supervision::HEALTH_STATUS_FAILED`. -/
def HEALTH_STATUS_FAILED : String := "FAILED"

/-- What `Supervision::checkDBServers` / `checkCoordinators` observe for one
planned machine on one tick: whether a transient sync record exists
(`_transient.has(syncPrefix + serverID)`), the transient heartbeat values,
the previously stored transient health values, and whether the time elapsed
since `LastHeartbeatAcked` exceeds the grace period. -/
structure HealthObs where
  sync : Bool
  heartbeatTime : String
  heartbeatStatus : String
  lastHeartbeatTime : String
  lastHeartbeatStatus : String
  lastStatus : String
  elapsedGtGrace : Bool
deriving DecidableEq

/-- Outcome of the per-machine body of a health check: the `Status` value
added to the report (if any), the `reportPersistent` flag deciding whether
the report is also written to the replicated agency, and whether a
`FailedServer` job creation envelope is merged into the report. -/
structure CheckOutcome where
  statusWritten : Option String
  reportPersistent : Bool
  createsFailedServerJob : Bool
deriving DecidableEq

/-- Per-machine body of `Supervision::checkDBServers` (Supervision.cpp,
lines 111-231), reduced to the status/persistence outcome.  The local
strings default to `""` when no sync record exists, exactly as the
default-constructed `std::string`s in the source. -/
def dbserverCheck (o : HealthObs) : CheckOutcome :=
  let heartbeatStatus := if o.sync then o.heartbeatStatus else ""
  let lastHeartbeatStatus := if o.sync then o.lastHeartbeatStatus else ""
  let lastStatus := if o.sync then o.lastStatus else ""
  let good := o.sync && (o.lastHeartbeatTime != o.heartbeatTime)
  let p0 := lastHeartbeatStatus != heartbeatStatus
  if good then
    { statusWritten := some HEALTH_STATUS_GOOD
      reportPersistent := p0 || (lastStatus != HEALTH_STATUS_GOOD)
      createsFailedServerJob := false }
  else if o.elapsedGtGrace then
    if lastStatus == HEALTH_STATUS_BAD then
      { statusWritten := some HEALTH_STATUS_FAILED
        reportPersistent := true
        createsFailedServerJob := true }
    else
      { statusWritten := none
        reportPersistent := p0
        createsFailedServerJob := false }
  else
    if lastStatus != HEALTH_STATUS_BAD then
      { statusWritten := some HEALTH_STATUS_BAD
        reportPersistent := true
        createsFailedServerJob := false }
    else
      { statusWritten := none
        reportPersistent := p0
        createsFailedServerJob := false }

/-- Per-machine body of `Supervision::checkCoordinators` (Supervision.cpp,
lines 279-379).  Differences from the data-server variant are kept: the
outer failed condition is `elapsed > _gracePeriod || !sync`, no job is
created, and the `BAD` branch does not set `reportPersistent`. -/
def coordinatorCheck (o : HealthObs) : CheckOutcome :=
  let heartbeatStatus := if o.sync then o.heartbeatStatus else ""
  let lastHeartbeatStatus := if o.sync then o.lastHeartbeatStatus else ""
  let lastStatus := if o.sync then o.lastStatus else ""
  let good := o.sync && (o.lastHeartbeatTime != o.heartbeatTime)
  let p0 := heartbeatStatus != lastHeartbeatStatus
  if good then
    { statusWritten := some HEALTH_STATUS_GOOD
      reportPersistent := p0 || (lastStatus != HEALTH_STATUS_GOOD)
      createsFailedServerJob := false }
  else if o.elapsedGtGrace || !o.sync then
    if lastStatus == HEALTH_STATUS_BAD then
      { statusWritten := some HEALTH_STATUS_FAILED
        reportPersistent := true
        createsFailedServerJob := false }
    else
      { statusWritten := none
        reportPersistent := p0
        createsFailedServerJob := false }
  else
    { statusWritten := some HEALTH_STATUS_BAD
      reportPersistent := p0
      createsFailedServerJob := false }

/-- The status that actually reaches the replicated agency on a tick: the
report is only written persistently when `reportPersistent` is set, and it
carries a `Status` field only when one was added. -/
def persistedStatus (c : CheckOutcome) : Option String :=
  if c.reportPersistent then c.statusWritten else none

/-- VelocyPack values as far as the supervision transactions need them. -/
inductive AVal where
  | str : String → AVal
  | obj : List (String × AVal) → AVal
  | arr : List AVal → AVal

/-- A single conditional agency transaction `[{ops}, {precs}]`: an object of
operations (path ↦ value or operator object) and an object of
preconditions. -/
structure ATrans where
  ops : List (String × AVal)
  precs : List (String × AVal)

/-- Agency path constant `healthPrefix` of Supervision.cpp. -/
def healthPath : String := "/Supervision/Health/"

/-- Agency path constant `toDoPrefix` of Job.h. -/
def toDoPath : String := "/Target/ToDo/"

/-- Agency path constant `failedServersPrefix` of Job.h. -/
def failedServersPath : String := "/Target/FailedServers"

/-- The operations part of the envelope built by `FailedServer::create`
(FailedServer.cpp, lines 249-265): the ToDo job record and the empty
`FailedServers` array entry for the server. -/
def FailedServerCreateOps (jobId creator server timeCreated : String) :
    List (String × AVal) :=
  [(toDoPath ++ jobId,
    .obj [("type", .str "failedServer"), ("server", .str server),
          ("jobId", .str jobId), ("creator", .str creator),
          ("timeCreated", .str timeCreated)]),
   (failedServersPath ++ "/" ++ server, .arr [])]

/-- The preconditions part of the envelope built by `FailedServer::create`
(FailedServer.cpp, lines 267-279): `Health/<server>/Status` must still have
old value `BAD`, and `Target/FailedServers` must equal the snapshot. -/
def FailedServerCreatePrecs (server : String) (snapFailedServers : AVal) :
    List (String × AVal) :=
  [(healthPath ++ server ++ "/Status", .obj [("old", .str "BAD")]),
   (failedServersPath, .obj [("old", snapFailedServers)])]

/-- Per-tick context of `checkDBServers` that does not come from the health
observation: ids, the allocated job id, the stringified current time and the
snapshot value of `Target/FailedServers`. -/
structure TickCtx where
  serverID : String
  shortName : String
  endpoint : Option String
  jobId : String
  now : String
  snapFailedServers : AVal

/-- The fields written by `checkDBServers` to `Health/<serverID>` before any
status decision (Supervision.cpp, lines 147-163). -/
def dbserverBaseFields (o : HealthObs) (ctx : TickCtx) : List (String × AVal) :=
  let heartbeatTime := if o.sync then o.heartbeatTime else ""
  let heartbeatStatus := if o.sync then o.heartbeatStatus else ""
  [("LastHeartbeatSent", .str heartbeatTime),
   ("LastHeartbeatStatus", .str heartbeatStatus),
   ("Role", .str "DBServer"),
   ("ShortName", .str ctx.shortName)] ++
  (match ctx.endpoint with
   | some e => [("Endpoint", .str e)]
   | none => [])

/-- The status-dependent tail of the `Health/<serverID>` record
(Supervision.cpp, lines 169-213). -/
def dbserverStatusFields (o : HealthObs) (ctx : TickCtx) : List (String × AVal) :=
  let lastStatus := if o.sync then o.lastStatus else ""
  let good := o.sync && (o.lastHeartbeatTime != o.heartbeatTime)
  if good then
    [("LastHeartbeatAcked", .str ctx.now),
     ("Status", .str HEALTH_STATUS_GOOD)]
  else if o.elapsedGtGrace then
    if lastStatus == HEALTH_STATUS_BAD then
      [("Status", .str HEALTH_STATUS_FAILED)]
    else []
  else
    if lastStatus != HEALTH_STATUS_BAD then
      [("Status", .str HEALTH_STATUS_BAD)]
    else []

/-- The full per-machine report transaction of `checkDBServers`
(Supervision.cpp, lines 137-231): the `Health/<serverID>` operation, with
the `FailedServer::create` envelope operations merged into the same
operation object and the envelope preconditions appended to the same
transaction whenever the machine is marked `FAILED`. -/
def dbserverTickTrans (o : HealthObs) (ctx : TickCtx) : ATrans :=
  let healthOp : String × AVal :=
    (healthPath ++ ctx.serverID,
     .obj (dbserverBaseFields o ctx ++ dbserverStatusFields o ctx))
  if (dbserverCheck o).createsFailedServerJob then
    { ops := healthOp ::
        FailedServerCreateOps ctx.jobId "supervision" ctx.serverID ctx.now
      precs := FailedServerCreatePrecs ctx.serverID ctx.snapFailedServers }
  else
    { ops := [healthOp], precs := [] }

/-- Concrete observation: server previously `BAD`, heartbeat unchanged,
grace period expired. -/
def obsBadStale : HealthObs :=
  { sync := true, heartbeatTime := "t2", heartbeatStatus := "x",
    lastHeartbeatTime := "t2", lastHeartbeatStatus := "x",
    lastStatus := "BAD", elapsedGtGrace := true }

/-- Concrete observation: server previously `GOOD`, heartbeat unchanged,
grace period already expired. -/
def obsGoodStale : HealthObs :=
  { sync := true, heartbeatTime := "t1", heartbeatStatus := "ok",
    lastHeartbeatTime := "t1", lastHeartbeatStatus := "ok",
    lastStatus := "GOOD", elapsedGtGrace := true }

/-- Concrete tick context for the failed-server transaction. -/
def ctx0 : TickCtx :=
  { serverID := "PRMR-1", shortName := "DBServer1", endpoint := some "tcp://h:8529",
    jobId := "1", now := "2017-04-readable", snapFailedServers := .obj [] }

end Supervision

namespace MMFiles

/-- Error code `TRI_ERROR_NO_ERROR`. -/
def TRI_ERROR_NO_ERROR : Int := 0

/-- Error code `TRI_ERROR_ARANGO_NO_JOURNAL` (numeric value abstracted). -/
def TRI_ERROR_ARANGO_NO_JOURNAL : Int := 1903

/-- Error code `TRI_ERROR_ARANGO_DATAFILE_FULL` (numeric value abstracted). -/
def TRI_ERROR_ARANGO_DATAFILE_FULL : Int := 1895

/-- A datafile as far as the journal-management functions observe it: its
file id, its maximal size, the append cursor (`_written`), and whether it
has been sealed. -/
structure MMFilesDatafile where
  fid : Nat
  maximalSize : Nat
  currentSize : Nat
  sealed : Bool
deriving DecidableEq, Repr

/-- The three datafile vectors of `MMFilesCollection` (MMFilesCollection.h):
`_datafiles`, `_journals`, `_compactors`. -/
structure FilesState where
  datafiles : List MMFilesDatafile
  journals : List MMFilesDatafile
  compactors : List MMFilesDatafile
deriving DecidableEq, Repr

/-- Modelled from the spec (§4.7): `MMFilesDatafile::reserveElement` is not
among the given sources; per the spec it returns a position on success and
*datafile-full* when the journal cannot provide `size` more bytes. -/
def reserveElement (df : MMFilesDatafile) (size : Nat) : Except Int Nat :=
  if df.currentSize + size ≤ df.maximalSize then .ok df.currentSize
  else .error TRI_ERROR_ARANGO_DATAFILE_FULL

/-- `MMFilesCollection::sealDatafile` (MMFilesCollection.cpp, lines
379-405), with the physical rename abstracted away. -/
def sealDatafile (df : MMFilesDatafile) : MMFilesDatafile :=
  { df with sealed := true }

/-- `MMFilesCollection::createDatafile` (MMFilesCollection.cpp, lines
662-770): a fresh journal of the requested maximal size. -/
def createDatafile (fid journalSize : Nat) : MMFilesDatafile :=
  { fid := fid, maximalSize := journalSize, currentSize := 0, sealed := false }

/-- `MMFilesCollection::rotateActiveJournal` (MMFilesCollection.cpp, lines
408-440): seal the sole journal, move it to `_datafiles`, erase it from
`_journals`. -/
def rotateActiveJournal (st : FilesState) : Int × FilesState :=
  match st.journals with
  | [] => (TRI_ERROR_ARANGO_NO_JOURNAL, st)
  | datafile :: rest =>
    (TRI_ERROR_NO_ERROR,
     { st with datafiles := st.datafiles ++ [sealDatafile datafile]
               journals := rest })

/-- The `while (targetSize - 256 < size) targetSize *= 2` loop of
`reserveJournalSpace` on 32-bit unsigned arithmetic, with fuel for the
doublings. -/
def computeTargetSize : Nat → Nat → Nat → Nat
  | 0, t, _ => t
  | f + 1, t, size =>
    if (t + 2 ^ 32 - 256) % 2 ^ 32 < size then
      computeTargetSize f (t * 2 % 2 ^ 32) size
    else t

/-- The `while (true)` body of `MMFilesCollection::reserveJournalSpace`
(MMFilesCollection.cpp, lines 513-593), with fuel standing in for the
unbounded loop: create a journal if none exists, try to reserve space in
it; on *datafile-full* seal the journal, move it into `_datafiles`, erase
it from `_journals` and loop; on success record the new append cursor and
return the position together with the journal. -/
def reserveJournalSpaceLoop (fuel : Nat) (tick size targetSize : Nat)
    (st : FilesState) : Except Int (Nat × MMFilesDatafile) × FilesState :=
  match fuel with
  | 0 => (.error TRI_ERROR_ARANGO_NO_JOURNAL, st)
  | fuel + 1 =>
    let st1 := if st.journals.isEmpty then
        { st with journals := st.journals ++ [createDatafile tick targetSize] }
      else st
    match st1.journals with
    | [] => (.error TRI_ERROR_ARANGO_NO_JOURNAL, st1)
    | datafile :: rest =>
      match reserveElement datafile size with
      | .ok position =>
        let df := { datafile with currentSize := position + size }
        (.ok (position, df), { st1 with journals := df :: rest })
      | .error res =>
        if res = TRI_ERROR_ARANGO_DATAFILE_FULL then
          reserveJournalSpaceLoop fuel tick size targetSize
            { st1 with datafiles := st1.datafiles ++ [sealDatafile datafile]
                       journals := rest }
        else (.error res, st1)

/-- `MMFilesCollection::reserveJournalSpace` (MMFilesCollection.cpp, lines
494-596): compute the target journal size from the configured
`journalSize`, then run the reserve loop. -/
def reserveJournalSpace (fuel : Nat) (tick size journalSize : Nat)
    (st : FilesState) : Except Int (Nat × MMFilesDatafile) × FilesState :=
  reserveJournalSpaceLoop fuel tick size (computeTargetSize 32 journalSize size) st

/-- Concrete files state with one nearly-full journal. -/
def filesState0 : FilesState :=
  { datafiles := []
    journals := [{ fid := 1, maximalSize := 8, currentSize := 6, sealed := false }]
    compactors := [] }

/-- A VelocyPack scalar value inside a document. -/
inductive SVal where
  | str : String → SVal
  | num : Nat → SVal
deriving DecidableEq, Repr

/-- A document slice: an object as an ordered list of attribute/value
pairs; the system attributes `_key` and `_rev` are ordinary entries, and
`newSlice.length` is the number of object members. -/
abbrev Slice := List (String × SVal)

/-- Attribute lookup in a slice. -/
def sliceGet (s : Slice) (k : String) : Option SVal :=
  (s.find? (fun (e : String × SVal) => e.1 == k)).map
    (fun (e : String × SVal) => e.2)

/-- `transaction::Methods::extractRevFromDocument`: the `_rev` system
attribute of a stored document, `0` when absent or malformed. -/
def extractRevFromDocument (s : Slice) : Nat :=
  match sliceGet s "_rev" with
  | some (.num r) => r
  | _ => 0

/-- `TRI_ExtractRevisionId` applied to an incoming slice: the expected
revision, `0` when the slice carries no `_rev`. -/
def TRI_ExtractRevisionId (s : Slice) : Nat :=
  extractRevFromDocument s

/-- `LogicalCollection::checkRevision` (given source, LogicalCollection.cpp):
the check passes unless a non-zero expected revision differs from the found
one. -/
def checkRevisionOk (expected found : Nat) : Bool :=
  !(expected != 0 && found != expected)

/-- Whether an attribute is one of the system attributes kept in fixed
positions by the document composer. -/
def isSystemAttr (k : String) : Bool :=
  k == "_key" || k == "_id" || k == "_from" || k == "_to" || k == "_rev"

/-- Set one attribute of a slice, replacing an existing entry in place or
appending. -/
def setAttr (s : Slice) (k : String) (v : SVal) : Slice :=
  if s.any (fun (e : String × SVal) => e.1 == k) then
    s.map (fun (e : String × SVal) => if e.1 == k then (e.1, v) else e)
  else s ++ [(k, v)]

/-- Modelled from the spec (§4.6): `transaction::Methods::
mergeObjectsForUpdate` is not among the given sources; per the spec the
update path builds the merged document from the old document patched with
the new slice, with system attributes first: `_key` is preserved and `_rev`
becomes the new revision (the model carries no null values, so `keepNull`
and non-object merging do not arise). -/
def mergeObjectsForUpdate (oldDoc newSlice : Slice) (revisionId : Nat) : Slice :=
  let userOld := oldDoc.filter (fun e => !isSystemAttr e.1)
  let userNew := newSlice.filter (fun e => !isSystemAttr e.1)
  [("_key", (sliceGet oldDoc "_key").getD (.str "")),
   ("_rev", .num revisionId)] ++
    userNew.foldl (fun acc e => setAttr acc e.1 e.2) userOld

/-- Modelled from the spec (§4.6): `transaction::Methods::
newObjectForReplace` is not among the given sources; per the spec the
replace path composes the new document from the new slice's user
attributes, preserving `_key` and stamping the new `_rev`. -/
def newObjectForReplace (oldDoc newSlice : Slice) (revisionId : Nat) : Slice :=
  [("_key", (sliceGet oldDoc "_key").getD (.str "")),
   ("_rev", .num revisionId)] ++
    newSlice.filter (fun e => !isSystemAttr e.1)

/-- Modelled from the spec (§4.6): `arangodb::shardKeysChanged` is not
among the given sources; per the spec it reports a changed sharding
attribute when any shard key's value in the post-image differs from the
pre-image. -/
def shardKeysChanged (shardKeys : List String) (oldDoc newDoc : Slice) : Bool :=
  shardKeys.any (fun k => sliceGet oldDoc k != sliceGet newDoc k)

/-- Result of a document operation. -/
inductive OpResult where
  | ok (doc : Slice)
  | errDocumentNotFound
  | errDocumentHandleBad
  | errConflict
  | errInternal
  | errMustNotChangeShardingAttributes
deriving DecidableEq, Repr

/-- The `OperationOptions` fields consumed by update/replace. -/
structure OperationOptions where
  waitForSync : Bool
  ignoreRevs : Bool
  mergeObjects : Bool
  keepNull : Bool
  recoveryMarker : Option (Nat × Slice)
deriving Repr

/-- The collection state touched by the document write path: the primary
index (key → revision id), the secondary-index entries, the revision cache
(revision id → document) and the appended journal markers. -/
structure CollState where
  primaryIndex : List (String × Nat)
  secondaryIndexes : List (Nat × Slice)
  revisionsCache : List (Nat × Slice)
  journalMarkers : List (Nat × Slice)
deriving DecidableEq, Repr

/-- `MMFilesPrimaryIndex::lookupKey`: the revision id stored for a key. -/
def lookupKey (st : CollState) (key : String) : Option Nat :=
  (st.primaryIndex.find? (fun e => e.1 == key)).map (fun e => e.2)

/-- `MMFilesCollection::lookupRevisionVPack`: the cached document of a
revision. -/
def lookupRevisionVPack (st : CollState) (revisionId : Nat) : Option Slice :=
  (st.revisionsCache.find? (fun e => e.1 == revisionId)).map (fun e => e.2)

/-- The successful tail of update/replace: `insertRevision` before the
index mutation (MMFilesCollection.cpp, lines 1646-1659), then
`LogicalCollection::updateDocument` (delete the old secondary entries,
insert the new ones, update the primary index element in place, drop the
old revision from the cache when the id changed), and `addOperation`
appending the marker to the journal. -/
def updateDocumentTail (st : CollState) (key : String)
    (oldRevisionId revisionId : Nat) (newDoc : Slice) : OpResult × CollState :=
  let st1 : CollState := { st with
    revisionsCache := st.revisionsCache ++ [(revisionId, newDoc)] }
  let st2 : CollState := { st1 with
    secondaryIndexes :=
      (st1.secondaryIndexes.filter (fun e => e.1 ≠ oldRevisionId)) ++
        [(revisionId, newDoc)] }
  let st3 : CollState := { st2 with
    primaryIndex := st2.primaryIndex.map
      (fun e => if e.1 == key then (e.1, revisionId) else e) }
  let st4 : CollState := if oldRevisionId ≠ revisionId then
      { st3 with revisionsCache :=
          st3.revisionsCache.filter (fun e => e.1 ≠ oldRevisionId) }
    else st3
  let st5 : CollState := { st4 with
    journalMarkers := st4.journalMarkers ++ [(revisionId, newDoc)] }
  (.ok newDoc, st5)

/-- `MMFilesCollection::update` (MMFilesCollection.cpp, lines 1552-1681):
look up the previous revision, check the expected revision, return the
unmodified previous document for patches with at most one member, merge,
reject a sharding-attribute change on a DB server, then run the shared
write tail. -/
def update (isDBServer : Bool) (shardKeys : List String) (st : CollState)
    (newSlice : Slice) (options : OperationOptions) (revisionId : Nat)
    (key : String) : OpResult × CollState :=
  match lookupKey st key with
  | none => (.errDocumentNotFound, st)
  | some oldRevisionId =>
    match lookupRevisionVPack st oldRevisionId with
    | none => (.errInternal, st)
    | some oldDoc =>
      let prevRev := extractRevFromDocument oldDoc
      if !options.ignoreRevs &&
          !(checkRevisionOk (TRI_ExtractRevisionId newSlice) prevRev) then
        (.errConflict, st)
      else if newSlice.length ≤ 1 then
        (.ok oldDoc, st)
      else
        match options.recoveryMarker with
        | none =>
          let builder := mergeObjectsForUpdate oldDoc newSlice revisionId
          if isDBServer && shardKeysChanged shardKeys oldDoc builder then
            (.errMustNotChangeShardingAttributes, st)
          else
            updateDocumentTail st key prevRev revisionId builder
        | some marker =>
          updateDocumentTail st key prevRev revisionId marker.2

/-- `MMFilesCollection::replace` (MMFilesCollection.cpp, lines 1683-1807):
extract the key from the new slice, look up the previous revision, check
the expected revision, build the replacement document, reject a
sharding-attribute change on a DB server, then run the shared write
tail. -/
def replace (isDBServer : Bool) (shardKeys : List String) (st : CollState)
    (newSlice : Slice) (options : OperationOptions) (revisionId : Nat) :
    OpResult × CollState :=
  match sliceGet newSlice "_key" with
  | none => (.errDocumentHandleBad, st)
  | some keyVal =>
    match keyVal with
    | .num _ => (.errDocumentHandleBad, st)
    | .str key =>
      match lookupKey st key with
      | none => (.errDocumentNotFound, st)
      | some oldRevisionId =>
        match lookupRevisionVPack st oldRevisionId with
        | none => (.errInternal, st)
        | some oldDoc =>
          let prevRev := extractRevFromDocument oldDoc
          if !options.ignoreRevs &&
              !(checkRevisionOk (TRI_ExtractRevisionId newSlice) prevRev) then
            (.errConflict, st)
          else
            let builder := newObjectForReplace oldDoc newSlice revisionId
            if isDBServer && shardKeysChanged shardKeys oldDoc builder then
              (.errMustNotChangeShardingAttributes, st)
            else
              match options.recoveryMarker with
              | none => updateDocumentTail st key prevRev revisionId builder
              | some marker =>
                updateDocumentTail st key prevRev revisionId marker.2

/-- A stored document with key `a`, revision 1 and one user attribute. -/
def doc1 : Slice := [("_key", .str "a"), ("_rev", .num 1), ("x", .num 1)]

/-- Concrete collection state holding exactly `doc1`. -/
def collState0 : CollState :=
  { primaryIndex := [("a", 1)]
    secondaryIndexes := [(1, doc1)]
    revisionsCache := [(1, doc1)]
    journalMarkers := [(1, doc1)] }

/-- Default operation options: ignore the expected revision. -/
def options0 : OperationOptions :=
  { waitForSync := false, ignoreRevs := true, mergeObjects := true,
    keepNull := true, recoveryMarker := none }

/-- A datafile marker as `applyForTickRange` classifies it: a document or
remove marker, a blank marker, or any other (non-data) marker type, each
carrying its tick. -/
inductive TMarker where
  | doc (tick : Nat)
  | rem (tick : Nat)
  | blank (tick : Nat)
  | other (tick : Nat)
deriving DecidableEq, Repr

/-- The tick of a marker (`marker->getTick()`). -/
def TMarker.tick : TMarker → Nat
  | .doc t => t
  | .rem t => t
  | .blank t => t
  | .other t => t

/-- Whether the marker type is `VPACK_DOCUMENT` or `VPACK_REMOVE`. -/
def TMarker.isData : TMarker → Bool
  | .doc _ => true
  | .rem _ => true
  | _ => false

/-- Whether the marker type is `VPACK_DOCUMENT`. -/
def TMarker.isDoc : TMarker → Bool
  | .doc _ => true
  | _ => false

/-- Whether the marker type is `TRI_DF_MARKER_BLANK`. -/
def TMarker.isBlank : TMarker → Bool
  | .blank _ => true
  | _ => false

/-- A datafile as the replication iterator sees it: its markers in offset
order. -/
structure DFile where
  markers : List TMarker
deriving DecidableEq, Repr

/-- The `_dataMin` summary as `MMFilesCollection::OpenIterator`
(MMFilesCollection.cpp, lines 256-268) maintains it: set from the first
*document* marker only (`type == TRI_DF_MARKER_VPACK_DOCUMENT`), `0` when
the file holds no document marker.  Remove markers do not contribute. -/
def DFile.dataMin (f : DFile) : Nat :=
  match f.markers.find? TMarker.isDoc with
  | some m => m.tick
  | none => 0

/-- The `_dataMax` summary, likewise maintained for *document* markers only
(MMFilesCollection.cpp, lines 263-265): the highest document-marker tick,
`0` when the file holds no document marker. -/
def DFile.dataMax (f : DFile) : Nat :=
  (f.markers.filter TMarker.isDoc).foldl (fun acc m => max acc m.tick) 0

/-- The `_tickMax` summary: the highest tick of any marker. -/
def DFile.tickMax (f : DFile) : Nat :=
  f.markers.foldl (fun acc m => max acc m.tick) 0

/-- `MMFilesCollection::datafilesInRange` (MMFilesCollection.cpp, lines
972-1010): keep the datafiles that hold data and whose
`[_dataMin, _dataMax]` overlaps the requested range. -/
def datafilesInRange (files : List DFile) (dataMin dataMax : Nat) :
    List DFile :=
  files.filter (fun f =>
    ¬(f.dataMin = 0 ∨ f.dataMax = 0) ∧
    ¬(dataMax < f.dataMin) ∧ ¬(dataMin > f.dataMax))

/-- The per-datafile marker scan of `applyForTickRange`
(MMFilesCollection.cpp, lines 1036-1098): skip blank markers, skip markers
at or below `dataMin`, return *hasMore = false* on a marker beyond
`dataMax` or once the last available marker was fetched, call the callback
on document/remove markers in range, and abort with *hasMore = true* when
the callback returned false.  The result pairs the recorded callback
invocations with `some hasMore` on an early return (`none` when the scan
fell off the end of the file). -/
def applyFileMarkers (dataMin dataMax tickMaxE : Nat) (isLast : Bool)
    (cb : Nat → TMarker → Bool) :
    List TMarker → List (Nat × TMarker) × Option Bool
  | [] => ([], none)
  | m :: rest =>
    if m.isBlank then applyFileMarkers dataMin dataMax tickMaxE isLast cb rest
    else
      let foundTick := m.tick
      if foundTick ≤ dataMin then
        applyFileMarkers dataMin dataMax tickMaxE isLast cb rest
      else if foundTick > dataMax then
        ([], some false)
      else if !m.isData then
        if foundTick ≥ dataMax ∨ (foundTick > tickMaxE ∧ isLast = true) then
          ([], some false)
        else
          applyFileMarkers dataMin dataMax tickMaxE isLast cb rest
      else
        let doAbort := !cb foundTick m
        if foundTick ≥ dataMax ∨ (foundTick ≥ tickMaxE ∧ isLast = true) then
          ([(foundTick, m)], some false)
        else if doAbort = true then
          ([(foundTick, m)], some true)
        else
          let r := applyFileMarkers dataMin dataMax tickMaxE isLast cb rest
          ((foundTick, m) :: r.1, r.2)

/-- The datafile loop of `applyForTickRange` (MMFilesCollection.cpp, lines
1021-1101): scan each selected file; an early file return is the overall
result, falling off a file continues with the next, falling off the last
file yields *hasMore = false*. -/
def applyFilesLoop (dataMin dataMax : Nat) (cb : Nat → TMarker → Bool) :
    List DFile → List (Nat × TMarker) × Bool
  | [] => ([], false)
  | f :: rest =>
    let r := applyFileMarkers dataMin dataMax f.tickMax rest.isEmpty cb
      f.markers
    match r.2 with
    | some hasMore => (r.1, hasMore)
    | none =>
      let r2 := applyFilesLoop dataMin dataMax cb rest
      (r.1 ++ r2.1, r2.2)

/-- `MMFilesCollection::applyForTickRange` (MMFilesCollection.cpp, lines
1012-1102): select the datafiles overlapping the range and run the marker
loop over them. -/
def applyForTickRange (files : List DFile) (dataMin dataMax : Nat)
    (cb : Nat → TMarker → Bool) : List (Nat × TMarker) × Bool :=
  applyFilesLoop dataMin dataMax cb (datafilesInRange files dataMin dataMax)

/-- The in-range data-marker predicate of the tick-range iteration. -/
def inRangeData (dataMin dataMax : Nat) (m : TMarker) : Bool :=
  m.isData && decide (dataMin < m.tick) && decide (m.tick ≤ dataMax)

/-- The in-range *document*-marker predicate. -/
def inRangeDoc (dataMin dataMax : Nat) (m : TMarker) : Bool :=
  m.isDoc && decide (dataMin < m.tick) && decide (m.tick ≤ dataMax)

/-- The last-available-marker condition of `applyForTickRange`
(MMFilesCollection.cpp, lines 1090-1093), stated against the selected file
list: the found tick reaches `dataMax`, or it reaches the tick maximum of
the last selected datafile. -/
def lastAvailableIn (gs : List DFile) (dataMax t : Nat) : Bool :=
  decide (dataMax ≤ t) ||
    (match gs.getLast? with
     | some fl => decide (fl.tickMax ≤ t)
     | none => false)

/-- Concrete datafiles for the tick-range iteration. -/
def tickFiles0 : List DFile :=
  [{ markers := [.doc 1, .other 2, .doc 3, .rem 4] }, { markers := [.doc 6] }]

/-- Concrete single-file setup where the only marker's tick equals the
upper bound of the requested range. -/
def tickFiles1 : List DFile := [{ markers := [.doc 5] }]

/-- Concrete single-file setup holding only a remove marker: its
document-marker summaries are zero, so `datafilesInRange` skips it. -/
def tickFiles2 : List DFile := [{ markers := [.rem 3] }]

/-- A data marker as the recovery iterator dispatches on it: the document
key and the revision id extracted from the marker body
(`extractKeyAndRevFromDocument`). -/
inductive RMarker where
  | doc (key : String) (rev : Nat)
  | rem (key : String) (rev : Nat)
deriving DecidableEq, Repr

/-- The document key of a marker. -/
def RMarker.key : RMarker → String
  | .doc k _ => k
  | .rem k _ => k

/-- The revision id of a marker. -/
def RMarker.rev : RMarker → Nat
  | .doc _ r => r
  | .rem _ r => r

/-- The state rebuilt by `iterateMarkersOnLoad`: the primary index
(key → revision id) and the revision cache, mapping each revision to the
in-file position of its marker (positions are global indices into the
concatenated marker sequence). -/
structure OpenState where
  primaryIndex : List (String × Nat)
  revisionsCache : List (Nat × Nat)
deriving DecidableEq, Repr

/-- `MMFilesPrimaryIndex::lookupKey` during recovery. -/
def openLookupKey (p : List (String × Nat)) (k : String) : Option Nat :=
  (p.find? (fun (e : String × Nat) => e.1 == k)).map
    (fun (e : String × Nat) => e.2)

/-- `MMFilesCollection::OpenIteratorHandleDocumentMarker`
(MMFilesCollection.cpp, lines 79-172): a key that is absent (or maps to
revision 0) is a fresh insert — add the revision to the cache and the key
to the primary index; a present key is an update — update the primary
entry's revision in place, drop the old revision from the cache, add the
new one. -/
def OpenIteratorHandleDocumentMarker (pos : Nat) (k : String) (r : Nat)
    (s : OpenState) : OpenState :=
  match openLookupKey s.primaryIndex k with
  | none =>
    { primaryIndex := s.primaryIndex ++ [(k, r)]
      revisionsCache := s.revisionsCache ++ [(r, pos)] }
  | some oldRev =>
    if oldRev = 0 then
      { primaryIndex := s.primaryIndex ++ [(k, r)]
        revisionsCache := s.revisionsCache ++ [(r, pos)] }
    else
      { primaryIndex := s.primaryIndex.map
          (fun (e : String × Nat) => if e.1 == k then (e.1, r) else e)
        revisionsCache :=
          (s.revisionsCache.filter (fun (e : Nat × Nat) => e.1 ≠ oldRev)) ++
            [(r, pos)] }

/-- `MMFilesCollection::OpenIteratorHandleDeletionMarker`
(MMFilesCollection.cpp, lines 175-246): a found key is a real delete —
remove the key from the primary index and the old revision from the cache;
an absent key only bumps the per-file deletion statistics. -/
def OpenIteratorHandleDeletionMarker (k : String) (s : OpenState) :
    OpenState :=
  match openLookupKey s.primaryIndex k with
  | none => s
  | some oldRev =>
    { primaryIndex := s.primaryIndex.filter
        (fun (e : String × Nat) => e.1 ≠ k)
      revisionsCache := s.revisionsCache.filter
        (fun (e : Nat × Nat) => e.1 ≠ oldRev) }

/-- `MMFilesCollection::OpenIterator` (MMFilesCollection.cpp, lines
248-304), restricted to the index-relevant marker types. -/
def OpenIterator (pos : Nat) (m : RMarker) (s : OpenState) : OpenState :=
  match m with
  | .doc k r => OpenIteratorHandleDocumentMarker pos k r s
  | .rem k _ => OpenIteratorHandleDeletionMarker k s

/-- Driving the open iterator over a marker sequence, threading the global
position. -/
def iterateMarkersFrom (pos : Nat) (s : OpenState) :
    List RMarker → OpenState
  | [] => s
  | m :: rest => iterateMarkersFrom (pos + 1) (OpenIterator pos m s) rest

/-- `MMFilesCollection::iterateMarkersOnLoad` (MMFilesCollection.cpp, lines
1140-1184): iterate all markers of all datafiles in fid order through the
open iterator, starting from an empty primary index and revision cache. -/
def iterateMarkersOnLoad (files : List (List RMarker)) : OpenState :=
  iterateMarkersFrom 0 { primaryIndex := [], revisionsCache := [] }
    (files.flatMap id)

/-- The revision of the last marker carrying a key, when that marker is a
document marker; `none` when it is a remove marker or the key never
occurs. -/
def lastRev (k : String) (ms : List RMarker) : Option Nat :=
  ms.foldl (fun acc m =>
    if RMarker.key m = k then
      match m with
      | .doc _ r => some r
      | .rem _ _ => none
    else acc) none

/-- Whether the marker at a position is live: a document marker that is the
last marker of its key. -/
def liveAt (ms : List RMarker) (p : Nat) : Bool :=
  match ms.get? p with
  | some (.doc k r) => lastRev k ms == some r
  | _ => false

/-- The number of live document markers. -/
def liveCount (ms : List RMarker) : Nat :=
  (List.range ms.length).countP (liveAt ms)

/-- Well-formed marker sequences: revision ids are non-zero and pairwise
distinct (revisions are generated by a strictly monotone hybrid logical
clock). -/
def GoodMarkers (ms : List RMarker) : Prop :=
  (∀ m ∈ ms, RMarker.rev m ≠ 0) ∧ (ms.map RMarker.rev).Nodup

/-- Concrete datafile contents: insert a, update a, insert b, remove b. -/
def recFiles0 : List (List RMarker) :=
  [[.doc "a" 1, .doc "a" 2], [.doc "b" 3, .rem "b" 4]]

/-- The recovery invariant tying the open-iterator state after consuming the
markers `pre` to the marker sequence itself: the primary index realises
`lastRev`, its keys are unique, the revision cache has one entry per primary
entry, each cache entry points at the in-file position of the live document
marker carrying that revision, and cached revisions and positions are
unique. -/
structure OpenInv (pre : List RMarker) (s : OpenState) : Prop where
  look : ∀ k, openLookupKey s.primaryIndex k = lastRev k pre
  pnodup : (s.primaryIndex.map Prod.fst).Nodup
  plen : s.primaryIndex.length = s.revisionsCache.length
  cmem : ∀ r p, (r, p) ∈ s.revisionsCache ↔
    ∃ k, pre.get? p = some (RMarker.doc k r) ∧ lastRev k pre = some r
  crev : (s.revisionsCache.map Prod.fst).Nodup
  cpos : (s.revisionsCache.map Prod.snd).Nodup

end MMFiles

namespace Supervision

/-- A ToDo job entry as far as `enforceReplication` inspects it: its
`type` and `shard` attributes. -/
structure SJob where
  jobType : String
  shard : String
deriving DecidableEq, Repr

/-- A planned collection as `enforceReplication` reads it: the optional
`replicationFactor`, whether `distributeShardsLike` is present, and the
planned shards with their server lists. -/
structure SCollection where
  replicationFactor : Option Nat
  distributeShardsLike : Bool
  shards : List (String × List String)
deriving Repr

/-- The parts of the agency snapshot consumed by `enforceReplication`. -/
structure ReplSnapshot where
  databases : List (String × List (String × SCollection))
  todo : List SJob
  blockedShards : List String
  availableServers : List String
deriving Repr

/-- The ToDo scan of `enforceReplication` (Supervision.cpp, lines 618-636):
is a ToDo job of type `addFollower`, `removeFollower` or `moveShard` with
this shard id already present? -/
def matchingTodoJob (todo : List SJob) (shardName : String) : Bool :=
  todo.any (fun job =>
    (job.jobType == "addFollower" || job.jobType == "removeFollower" ||
     job.jobType == "moveShard") && job.shard == shardName)

/-- The per-shard body of `enforceReplication` (Supervision.cpp, lines
613-652): compare the actual server count with the replication factor,
gate on an already-present ToDo job and on the shard lock, then schedule
an `AddFollower` or `RemoveFollower` job. -/
def shardRepairJobs (snap : ReplSnapshot) (replicationFactor : Nat)
    (shardName : String) (servers : List String) : List SJob :=
  if servers.length ≠ replicationFactor then
    let found := matchingTodoJob snap.todo shardName ||
      snap.blockedShards.contains shardName
    if found then []
    else if servers.length < replicationFactor then
      [{ jobType := "addFollower", shard := shardName }]
    else
      [{ jobType := "removeFollower", shard := shardName }]
  else []

/-- The per-collection body of `enforceReplication` (Supervision.cpp, lines
592-654): a missing `replicationFactor` skips the collection, a satellite
(`replicationFactor = 0`) expands to all available servers, and clones are
skipped. -/
def collectionRepairJobs (snap : ReplSnapshot) (col : SCollection) : List SJob :=
  match col.replicationFactor with
  | none => []
  | some rf0 =>
    let rf := if rf0 = 0 then snap.availableServers.length else rf0
    if col.distributeShardsLike then []
    else col.shards.flatMap (fun sh => shardRepairJobs snap rf sh.1 sh.2)

/-- `Supervision::enforceReplication` (Supervision.cpp, lines 587-658),
returning the list of jobs it schedules on this tick, in visit order. -/
def enforceReplication (snap : ReplSnapshot) : List SJob :=
  snap.databases.flatMap (fun db => db.2.flatMap
    (fun c => collectionRepairJobs snap c.2))

/-- One supervision tick restricted to `enforceReplication`: each scheduled
job runs `create`, which writes its ToDo entry through an unconditional
agency transaction (AddFollower.cpp, lines 85-150), so the ToDo list grows
by the scheduled jobs. -/
def enforceReplicationTick (snap : ReplSnapshot) : ReplSnapshot :=
  { snap with todo := snap.todo ++ enforceReplication snap }

/-- Iterated supervision ticks of `enforceReplication`. -/
def enforceReplicationIter : Nat → ReplSnapshot → ReplSnapshot
  | 0, snap => snap
  | n + 1, snap => enforceReplicationIter n (enforceReplicationTick snap)

/-- Number of `addFollower` ToDo entries for a shard. -/
def addFollowerCount (todo : List SJob) (shardName : String) : Nat :=
  todo.countP (fun j => j.jobType == "addFollower" && j.shard == shardName)

/-- Occurrences of a shard inside one planned collection, as relevant to
`enforceReplication`: nothing for clones or collections without a
replication factor, otherwise the effective replication factor paired with
the planned server list of each matching shard. -/
def collectionShardOccurrences (snap : ReplSnapshot) (col : SCollection)
    (shardName : String) : List (Nat × List String) :=
  match col.replicationFactor with
  | none => []
  | some rf0 =>
    let rf := if rf0 = 0 then snap.availableServers.length else rf0
    if col.distributeShardsLike then []
    else (col.shards.filter (fun sh => sh.1 = shardName)).map
      (fun sh => (rf, sh.2))

/-- All occurrences of a shard in planned non-clone collections that carry a
replication factor: the effective replication factor paired with the
planned server list. -/
def shardOccurrences (snap : ReplSnapshot) (shardName : String) :
    List (Nat × List String) :=
  snap.databases.flatMap (fun db => db.2.flatMap
    (fun c => collectionShardOccurrences snap c.2 shardName))

/-- Concrete snapshot: one non-clone collection with replication factor 3
and a single shard held by two servers, nothing blocked, empty ToDo. -/
def replSnap0 : ReplSnapshot :=
  { databases := [("_system",
      [("c", { replicationFactor := some 3, distributeShardsLike := false,
               shards := [("s1", ["A", "B"])] })])]
    todo := []
    blockedShards := []
    availableServers := ["A", "B", "C", "D"] }

/-- A job scheduled by `shrinkCluster`. -/
inductive ShrinkJob where
  | removeServer (server : String)
  | cleanOutServer (server : String)
deriving DecidableEq, Repr

/-- A planned collection as `shrinkCluster` reads it: the optional
`replicationFactor` and the shards, each being its list of servers in
position order (position 0 is the leader). -/
structure ShrinkCol where
  replicationFactor : Option Nat
  shards : List (List String)
deriving Repr

/-- The parts of the agency snapshot consumed by `shrinkCluster`: whether
ToDo/Pending are empty, `Job::availableServers`, `/Target/
NumberOfDBServers` (`none` when unset), the `serverHealth` lookup, and the
flattened planned collections. -/
structure ShrinkSnapshot where
  todoEmpty : Bool
  pendingEmpty : Bool
  availServers : List String
  targetNumDBServers : Option Nat
  health : String → String
  collections : List ShrinkCol

/-- The collection scan of `shrinkCluster` (Supervision.cpp, lines
768-815): accumulate the greatest replication factor, and prune from the
useless-failed list every server that leads some shard or whose
`replicationFactor` reaches the number of alive servers; a collection
without a replication factor makes the whole of `shrinkCluster` return
(the catch block returns). -/
def shrinkScanCollections (availLen : Nat) :
    List ShrinkCol → Nat → List String → Option (Nat × List String)
  | [], maxReplFact, useless => some (maxReplFact, useless)
  | col :: rest, maxReplFact, useless =>
    match col.replicationFactor with
    | none => none
    | some replFact =>
      let maxReplFact := if replFact > maxReplFact then replFact else maxReplFact
      let useless :=
        if useless.length > 0 then
          col.shards.foldl (fun ul servers =>
            servers.enum.foldl (fun ul2 p =>
              if ul2.contains p.2 ∧ (p.1 = 0 ∨ replFact ≥ availLen) then
                ul2.erase p.2
              else ul2) ul) useless
        else useless
      shrinkScanCollections availLen rest maxReplFact useless

/-- The servers that remain available after the failed ones are
partitioned away (Supervision.cpp, lines 749-755). -/
def shrinkAlive (snap : ShrinkSnapshot) : List String :=
  snap.availServers.filter
    (fun server => snap.health server ≠ HEALTH_STATUS_FAILED)

/-- The initial useless-failed list: every available server whose health is
`FAILED` (Supervision.cpp, lines 748-755). -/
def shrinkUselessFailed (snap : ShrinkSnapshot) : List String :=
  snap.availServers.filter
    (fun server => ¬(snap.health server ≠ HEALTH_STATUS_FAILED))

/-- The collection scan applied to the state `shrinkCluster` builds. -/
def shrinkScan (snap : ShrinkSnapshot) : Option (Nat × List String) :=
  shrinkScanCollections (shrinkAlive snap).length snap.collections 1
    (shrinkUselessFailed snap)

/-- `Supervision::shrinkCluster` (Supervision.cpp, lines 716-845),
returning the jobs it schedules on this tick.  The `RemoveServer`
invocation on the useless-failed list is disabled in the source (only a
log line and a `return` remain), so that branch schedules nothing. -/
def shrinkCluster (snap : ShrinkSnapshot) : List ShrinkJob :=
  if !snap.todoEmpty || !snap.pendingEmpty then []
  else
    match snap.targetNumDBServers with
    | none => []
    | some targetNumDBServers =>
      if targetNumDBServers < snap.availServers.length then
        if snap.availServers.length = 1 then []
        else
          match shrinkScan snap with
          | none => []
          | some (maxReplFact, useless) =>
            if useless.length > 0 then
              []
            else if maxReplFact < (shrinkAlive snap).length then
              if (shrinkAlive snap).length > maxReplFact ∧
                  (shrinkAlive snap).length > targetNumDBServers then
                match ((shrinkAlive snap).mergeSort
                    (fun a b => a ≤ b)).getLast? with
                | some server => [ShrinkJob.cleanOutServer server]
                | none => []
              else []
            else []
      else []

/-- Concrete snapshot for `shrinkCluster`: three available servers, one of
them `FAILED` and holding nothing, target of two servers. -/
def shrinkSnap0 : ShrinkSnapshot :=
  { todoEmpty := true
    pendingEmpty := true
    availServers := ["A", "B", "C"]
    targetNumDBServers := some 2
    health := fun server => if server = "C" then "FAILED" else "GOOD"
    collections := [{ replicationFactor := some 2, shards := [["A", "B"]] }] }

end Supervision

namespace Supervision

theorem persistedStatus_eq_some {c : CheckOutcome} {s : String}
    (h : persistedStatus c = some s) :
    c.statusWritten = some s ∧ c.reportPersistent = true := by
  unfold persistedStatus at h
  by_cases hp : c.reportPersistent <;> simp [hp] at h <;> simp [h, hp]

theorem dbserverCheck_failed_requires_bad (o : HealthObs)
    (h : (dbserverCheck o).statusWritten = some HEALTH_STATUS_FAILED) :
    o.sync = true ∧ o.lastStatus = HEALTH_STATUS_BAD := by
  unfold dbserverCheck at h
  by_cases hs : o.sync <;>
    simp only [hs, if_true, if_false, Bool.true_and, Bool.false_and] at h <;>
    split_ifs at h with h1 h2 h3 <;>
    simp_all [HEALTH_STATUS_GOOD, HEALTH_STATUS_BAD, HEALTH_STATUS_FAILED]

theorem coordinatorCheck_failed_requires_bad (o : HealthObs)
    (h : (coordinatorCheck o).statusWritten = some HEALTH_STATUS_FAILED) :
    o.sync = true ∧ o.lastStatus = HEALTH_STATUS_BAD := by
  unfold coordinatorCheck at h
  by_cases hs : o.sync <;>
    simp only [hs, if_true, if_false, Bool.true_and, Bool.false_and] at h <;>
    split_ifs at h with h1 h2 h3 <;>
    simp_all [HEALTH_STATUS_GOOD, HEALTH_STATUS_BAD, HEALTH_STATUS_FAILED]

/-- C1: over every trace of health-check ticks, a `FAILED` status is
persisted to the agency (by either the data-server or the coordinator
check) only on a tick whose previously observed transient status for the
server was `BAD`; in particular the persisted status sequence never moves
directly from `GOOD` to `FAILED`. -/
theorem health_persisted_failed_requires_bad (trace : List HealthObs) :
    ∀ o ∈ trace,
      (persistedStatus (dbserverCheck o) = some HEALTH_STATUS_FAILED ∨
       persistedStatus (coordinatorCheck o) = some HEALTH_STATUS_FAILED) →
      o.sync = true ∧ o.lastStatus = HEALTH_STATUS_BAD := by
  intro o _ h
  rcases h with h | h
  · exact dbserverCheck_failed_requires_bad o (persistedStatus_eq_some h).1
  · exact coordinatorCheck_failed_requires_bad o (persistedStatus_eq_some h).1

/-- Witness for C1 at a concrete trace and observation. -/
theorem health_persisted_failed_requires_bad_witness :
    obsBadStale ∈ [obsBadStale] ∧
    persistedStatus (dbserverCheck obsBadStale) = some HEALTH_STATUS_FAILED ∧
    (obsBadStale.sync = true ∧ obsBadStale.lastStatus = HEALTH_STATUS_BAD) :=
  ⟨List.mem_singleton.mpr rfl, by decide,
   health_persisted_failed_requires_bad [obsBadStale] obsBadStale
     (List.mem_singleton.mpr rfl) (Or.inl (by decide))⟩

/-- C2 counterexample: a planned data node previously `GOOD`, with unchanged
heartbeat and the grace period already exceeded, does **not** get status
`BAD` written or persisted: the data-server check adds no `Status` at all
in that branch. -/
theorem dbserverCheck_good_stale_counterexample :
    obsGoodStale.lastStatus = HEALTH_STATUS_GOOD ∧
    (obsGoodStale.sync && (obsGoodStale.lastHeartbeatTime !=
        obsGoodStale.heartbeatTime)) = false ∧
    obsGoodStale.elapsedGtGrace = true ∧
    ¬((dbserverCheck obsGoodStale).statusWritten = some HEALTH_STATUS_BAD ∧
      (dbserverCheck obsGoodStale).reportPersistent = true) := by
  decide

/-- C2 amended: for a node whose previously observed status is `GOOD` and
whose heartbeat has not changed, when the elapsed time exceeds the grace
period the data-server check writes **no** new status (the report carries no
`Status` field), and the report is persisted only if the heartbeat status
string changed. -/
theorem dbserverCheck_good_stale_writes_no_status (o : HealthObs)
    (hsync : o.sync = true)
    (hhb : o.lastHeartbeatTime = o.heartbeatTime)
    (hstat : o.lastStatus = HEALTH_STATUS_GOOD)
    (hel : o.elapsedGtGrace = true) :
    (dbserverCheck o).statusWritten = none ∧
    (dbserverCheck o).reportPersistent =
      (o.lastHeartbeatStatus != o.heartbeatStatus) := by
  unfold dbserverCheck
  simp [hsync, hhb, hstat, hel, HEALTH_STATUS_GOOD, HEALTH_STATUS_BAD]

/-- Witness for the amended C2 statement at a concrete observation. -/
theorem dbserverCheck_good_stale_writes_no_status_witness :
    obsGoodStale.sync = true ∧
    obsGoodStale.lastHeartbeatTime = obsGoodStale.heartbeatTime ∧
    obsGoodStale.lastStatus = HEALTH_STATUS_GOOD ∧
    obsGoodStale.elapsedGtGrace = true ∧
    ((dbserverCheck obsGoodStale).statusWritten = none ∧
     (dbserverCheck obsGoodStale).reportPersistent =
       (obsGoodStale.lastHeartbeatStatus != obsGoodStale.heartbeatStatus)) :=
  ⟨rfl, rfl, rfl, rfl,
   dbserverCheck_good_stale_writes_no_status obsGoodStale rfl rfl rfl rfl⟩

theorem dbserverCheck_creates_job_conditions (o : HealthObs)
    (h : (dbserverCheck o).createsFailedServerJob = true) :
    (o.sync && (o.lastHeartbeatTime != o.heartbeatTime)) = false ∧
    o.elapsedGtGrace = true ∧
    ((if o.sync then o.lastStatus else "") == HEALTH_STATUS_BAD) = true := by
  simp only [dbserverCheck] at h
  split_ifs at h with h1 h2 h3 <;> simp_all

/-- C3: whenever the data-server check marks a machine `FAILED`, the very
same transaction contains the `Health/<server>` write with `Status =
FAILED`, the `failedServer` ToDo entry, the empty `Target/FailedServers/
<server>` side entry, and the preconditions that `Health/<server>/Status`
still has old value `BAD` and that `Target/FailedServers` equals the
snapshot; the transaction is written persistently. -/
theorem dbserverTick_failed_transaction (o : HealthObs) (ctx : TickCtx)
    (h : (dbserverCheck o).createsFailedServerJob = true) :
    ((healthPath ++ ctx.serverID,
      AVal.obj (dbserverBaseFields o ctx ++
        [("Status", AVal.str HEALTH_STATUS_FAILED)]))
        ∈ (dbserverTickTrans o ctx).ops) ∧
    ((toDoPath ++ ctx.jobId,
      AVal.obj [("type", AVal.str "failedServer"),
                ("server", AVal.str ctx.serverID),
                ("jobId", AVal.str ctx.jobId),
                ("creator", AVal.str "supervision"),
                ("timeCreated", AVal.str ctx.now)])
        ∈ (dbserverTickTrans o ctx).ops) ∧
    ((failedServersPath ++ "/" ++ ctx.serverID, AVal.arr [])
        ∈ (dbserverTickTrans o ctx).ops) ∧
    ((healthPath ++ ctx.serverID ++ "/Status",
      AVal.obj [("old", AVal.str "BAD")])
        ∈ (dbserverTickTrans o ctx).precs) ∧
    ((failedServersPath, AVal.obj [("old", ctx.snapFailedServers)])
        ∈ (dbserverTickTrans o ctx).precs) ∧
    (dbserverCheck o).reportPersistent = true := by
  obtain ⟨hgood, hel, hbad⟩ := dbserverCheck_creates_job_conditions o h
  have hpers : (dbserverCheck o).reportPersistent = true := by
    simp only [dbserverCheck]
    simp [hgood, hel, hbad]
  have hfields : dbserverStatusFields o ctx =
      [("Status", AVal.str HEALTH_STATUS_FAILED)] := by
    simp only [dbserverStatusFields]
    simp [hgood, hel, hbad]
  refine ⟨?_, ?_, ?_, ?_, ?_, hpers⟩ <;>
    simp [dbserverTickTrans, h, hfields, FailedServerCreateOps,
          FailedServerCreatePrecs]

/-- Witness for C3 at a concrete observation and tick context. -/
theorem dbserverTick_failed_transaction_witness :
    (dbserverCheck obsBadStale).createsFailedServerJob = true ∧
    ((healthPath ++ ctx0.serverID,
      AVal.obj (dbserverBaseFields obsBadStale ctx0 ++
        [("Status", AVal.str HEALTH_STATUS_FAILED)]))
        ∈ (dbserverTickTrans obsBadStale ctx0).ops) ∧
    ((toDoPath ++ ctx0.jobId,
      AVal.obj [("type", AVal.str "failedServer"),
                ("server", AVal.str ctx0.serverID),
                ("jobId", AVal.str ctx0.jobId),
                ("creator", AVal.str "supervision"),
                ("timeCreated", AVal.str ctx0.now)])
        ∈ (dbserverTickTrans obsBadStale ctx0).ops) ∧
    ((failedServersPath ++ "/" ++ ctx0.serverID, AVal.arr [])
        ∈ (dbserverTickTrans obsBadStale ctx0).ops) ∧
    ((healthPath ++ ctx0.serverID ++ "/Status",
      AVal.obj [("old", AVal.str "BAD")])
        ∈ (dbserverTickTrans obsBadStale ctx0).precs) ∧
    ((failedServersPath, AVal.obj [("old", ctx0.snapFailedServers)])
        ∈ (dbserverTickTrans obsBadStale ctx0).precs) ∧
    (dbserverCheck obsBadStale).reportPersistent = true := by
  have h : (dbserverCheck obsBadStale).createsFailedServerJob = true := by decide
  exact ⟨h, dbserverTick_failed_transaction obsBadStale ctx0 h⟩

end Supervision

namespace MMFiles

theorem reserveJournalSpaceLoop_invariants (fuel : Nat)
    (tick size targetSize : Nat) (st : FilesState)
    (h : st.journals.length ≤ 1) :
    (((reserveJournalSpaceLoop fuel tick size targetSize st).2).journals.length ≤ 1) ∧
    (∀ pos df,
      (reserveJournalSpaceLoop fuel tick size targetSize st).1 = .ok (pos, df) →
      ((reserveJournalSpaceLoop fuel tick size targetSize st).2).journals = [df]) ∧
    (∀ d ∈ ((reserveJournalSpaceLoop fuel tick size targetSize st).2).datafiles,
      d ∈ st.datafiles ∨ d.sealed = true) := by
  induction fuel generalizing st with
  | zero =>
    refine ⟨by simpa [reserveJournalSpaceLoop] using h, ?_, ?_⟩
    · intro pos df hok
      simp [reserveJournalSpaceLoop] at hok
    · intro d hd
      simp only [reserveJournalSpaceLoop] at hd
      exact Or.inl hd
  | succ fuel ih =>
    rcases hst : st.journals with _ | ⟨j, rest⟩
    · rcases hre : reserveElement (createDatafile tick targetSize) size with e | pos
      · by_cases hfull : e = TRI_ERROR_ARANGO_DATAFILE_FULL
        · have hstep : reserveJournalSpaceLoop (fuel + 1) tick size targetSize st =
              reserveJournalSpaceLoop fuel tick size targetSize
                { st with
                  datafiles :=
                    st.datafiles ++ [sealDatafile (createDatafile tick targetSize)]
                  journals := [] } := by
            simp [reserveJournalSpaceLoop, hst, hre, hfull]
          rw [hstep]
          have hrec := ih { st with
              datafiles :=
                st.datafiles ++ [sealDatafile (createDatafile tick targetSize)]
              journals := [] } (by simp)
          refine ⟨hrec.1, hrec.2.1, ?_⟩
          intro d hd
          rcases hrec.2.2 d hd with hmem | hs
          · rcases List.mem_append.mp hmem with h1 | h2
            · exact Or.inl h1
            · refine Or.inr ?_
              have : d = sealDatafile (createDatafile tick targetSize) := by
                simpa using h2
              simp [this, sealDatafile]
          · exact Or.inr hs
        · have hstep : reserveJournalSpaceLoop (fuel + 1) tick size targetSize st =
              (.error e, { st with journals := [createDatafile tick targetSize] }) := by
            simp [reserveJournalSpaceLoop, hst, hre, hfull]
          rw [hstep]
          refine ⟨by simp, ?_, ?_⟩
          · intro pos df hok
            simp at hok
          · intro d hd
            exact Or.inl hd
      · have hstep : reserveJournalSpaceLoop (fuel + 1) tick size targetSize st =
            (.ok (pos, { createDatafile tick targetSize with currentSize := pos + size }),
             { st with journals :=
                 [{ createDatafile tick targetSize with currentSize := pos + size }] }) := by
          simp [reserveJournalSpaceLoop, hst, hre]
        rw [hstep]
        refine ⟨by simp, ?_, ?_⟩
        · intro pos1 df1 hok
          simp only [Except.ok.injEq, Prod.mk.injEq] at hok
          simp [hok.2]
        · intro d hd
          exact Or.inl hd
    · have hrest : rest = [] := by
        rw [hst] at h
        simpa using h
      subst hrest
      rcases hre : reserveElement j size with e | pos
      · by_cases hfull : e = TRI_ERROR_ARANGO_DATAFILE_FULL
        · have hstep : reserveJournalSpaceLoop (fuel + 1) tick size targetSize st =
              reserveJournalSpaceLoop fuel tick size targetSize
                { st with
                  datafiles := st.datafiles ++ [sealDatafile j]
                  journals := [] } := by
            simp [reserveJournalSpaceLoop, hst, hre, hfull]
          rw [hstep]
          have hrec := ih { st with
              datafiles := st.datafiles ++ [sealDatafile j]
              journals := [] } (by simp)
          refine ⟨hrec.1, hrec.2.1, ?_⟩
          intro d hd
          rcases hrec.2.2 d hd with hmem | hs
          · rcases List.mem_append.mp hmem with h1 | h2
            · exact Or.inl h1
            · refine Or.inr ?_
              have : d = sealDatafile j := by simpa using h2
              simp [this, sealDatafile]
          · exact Or.inr hs
        · have hstep : reserveJournalSpaceLoop (fuel + 1) tick size targetSize st =
              (.error e, st) := by
            simp [reserveJournalSpaceLoop, hst, hre, hfull]
          rw [hstep]
          refine ⟨h, ?_, ?_⟩
          · intro pos df hok
            simp at hok
          · intro d hd
            exact Or.inl hd
      · have hstep : reserveJournalSpaceLoop (fuel + 1) tick size targetSize st =
            (.ok (pos, { j with currentSize := pos + size }),
             { st with journals := [{ j with currentSize := pos + size }] }) := by
          simp [reserveJournalSpaceLoop, hst, hre]
        rw [hstep]
        refine ⟨by simp, ?_, ?_⟩
        · intro pos1 df1 hok
          simp only [Except.ok.injEq, Prod.mk.injEq] at hok
          simp [hok.2]
        · intro d hd
          exact Or.inl hd

/-- C6: the `_journals` vector holds at most one datafile: both
`reserveJournalSpace` and `rotateActiveJournal` preserve `|journals| <= 1`;
whenever `reserveJournalSpace` returns success the returned datafile is the
sole journal; and any datafile newly moved into `_datafiles` by the call has
been sealed first. -/
theorem journals_at_most_one (fuel tick size journalSize : Nat)
    (st : FilesState) (h : st.journals.length ≤ 1) :
    (((reserveJournalSpace fuel tick size journalSize st).2).journals.length ≤ 1) ∧
    (∀ pos df,
      (reserveJournalSpace fuel tick size journalSize st).1 = .ok (pos, df) →
      ((reserveJournalSpace fuel tick size journalSize st).2).journals = [df]) ∧
    (∀ d ∈ ((reserveJournalSpace fuel tick size journalSize st).2).datafiles,
      d ∈ st.datafiles ∨ d.sealed = true) ∧
    (((rotateActiveJournal st).2).journals.length ≤ 1) := by
  have hmain := reserveJournalSpaceLoop_invariants fuel tick size
    (computeTargetSize 32 journalSize size) st h
  refine ⟨hmain.1, hmain.2.1, hmain.2.2, ?_⟩
  rcases hst : st.journals with _ | ⟨j, rest⟩
  · simp [rotateActiveJournal, hst]
  · have hrest : rest = [] := by
      rw [hst] at h
      simpa using h
    subst hrest
    simp [rotateActiveJournal, hst]

/-- Witness for C6 on a concrete state whose journal is nearly full, so that
the call seals it and opens a fresh journal. -/
theorem journals_at_most_one_witness :
    filesState0.journals.length ≤ 1 ∧
    ((((reserveJournalSpace 2 7 4 8 filesState0).2).journals.length ≤ 1) ∧
     (∀ pos df,
       (reserveJournalSpace 2 7 4 8 filesState0).1 = .ok (pos, df) →
       ((reserveJournalSpace 2 7 4 8 filesState0).2).journals = [df]) ∧
     (∀ d ∈ ((reserveJournalSpace 2 7 4 8 filesState0).2).datafiles,
       d ∈ filesState0.datafiles ∨ d.sealed = true) ∧
     (((rotateActiveJournal filesState0).2).journals.length ≤ 1)) :=
  ⟨by decide, journals_at_most_one 2 7 4 8 filesState0 (by decide)⟩

end MMFiles

namespace Supervision

theorem shardRepairJobs_shard_eq {snap : ReplSnapshot} {rf : Nat}
    {shn : String} {servers : List String} {j : SJob}
    (hj : j ∈ shardRepairJobs snap rf shn servers) : j.shard = shn := by
  simp only [shardRepairJobs] at hj
  split_ifs at hj with h1 h2 h3
  · exact absurd hj (List.not_mem_nil j)
  · rw [List.mem_singleton] at hj
    subst hj
    rfl
  · rw [List.mem_singleton] at hj
    subst hj
    rfl
  · exact absurd hj (List.not_mem_nil j)

theorem shardRepairJobs_filter_self (snap : ReplSnapshot) (rf : Nat)
    (shn s : String) (servers : List String) :
    (shardRepairJobs snap rf shn servers).filter (fun j => j.shard == s) =
      if shn = s then shardRepairJobs snap rf s servers else [] := by
  by_cases hs : shn = s
  · subst hs
    rw [if_pos rfl]
    simp only [shardRepairJobs]
    split_ifs with h1 h2 h3 <;> simp
  · rw [if_neg hs]
    simp only [shardRepairJobs]
    split_ifs with h1 h2 h3 <;> simp [List.filter_cons, hs]

theorem map_filter_flatMap_occ (snap : ReplSnapshot) (rf : Nat) (s : String)
    (shards : List (String × List String)) :
    ((shards.filter (fun sh => sh.1 = s)).map (fun sh => (rf, sh.2))).flatMap
        (fun e => shardRepairJobs snap e.1 s e.2) =
      shards.flatMap (fun sh =>
        if sh.1 = s then shardRepairJobs snap rf s sh.2 else []) := by
  induction shards with
  | nil => rfl
  | cons sh t ih =>
    by_cases hs : sh.1 = s
    · simp [List.filter_cons, List.flatMap_cons, hs, ih]
    · simp [List.filter_cons, List.flatMap_cons, hs, ih]

theorem collectionRepairJobs_filter (snap : ReplSnapshot) (col : SCollection)
    (s : String) :
    (collectionRepairJobs snap col).filter (fun j => j.shard == s) =
      (collectionShardOccurrences snap col s).flatMap
        (fun e => shardRepairJobs snap e.1 s e.2) := by
  unfold collectionRepairJobs collectionShardOccurrences
  rcases col.replicationFactor with _ | rf0
  · simp
  · by_cases hclone : col.distributeShardsLike
    · simp [hclone]
    · simp only [hclone, Bool.false_eq_true, if_false]
      rw [List.filter_flatMap]
      simp only [shardRepairJobs_filter_self]
      exact (map_filter_flatMap_occ snap _ s col.shards).symm

theorem enforceReplication_filter (snap : ReplSnapshot) (s : String) :
    (enforceReplication snap).filter (fun j => j.shard == s) =
      (shardOccurrences snap s).flatMap
        (fun e => shardRepairJobs snap e.1 s e.2) := by
  unfold enforceReplication shardOccurrences
  rw [List.filter_flatMap, List.flatMap_assoc]
  congr 1
  funext db
  rw [List.filter_flatMap, List.flatMap_assoc]
  congr 1
  funext c
  exact collectionRepairJobs_filter snap c.2 s

theorem shardRepairJobs_mem {snap : ReplSnapshot} {rf : Nat}
    {shn : String} {servers : List String} {j : SJob}
    (hj : j ∈ shardRepairJobs snap rf shn servers) :
    matchingTodoJob snap.todo shn = false ∧
    snap.blockedShards.contains shn = false ∧
    ((j = { jobType := "addFollower", shard := shn } ∧ servers.length < rf) ∨
     (j = { jobType := "removeFollower", shard := shn } ∧ rf < servers.length)) := by
  simp only [shardRepairJobs] at hj
  split_ifs at hj with h1 h2 h3
  · exact absurd hj (List.not_mem_nil j)
  · rw [List.mem_singleton] at hj
    have hm : matchingTodoJob snap.todo shn = false := by
      cases hmm : matchingTodoJob snap.todo shn
      · rfl
      · exact absurd (by simp [hmm]) h2
    have hb : snap.blockedShards.contains shn = false := by
      cases hbb : snap.blockedShards.contains shn
      · rfl
      · exact absurd (by simp only [hbb, Bool.or_true]) h2
    exact ⟨hm, hb, Or.inl ⟨hj, h3⟩⟩
  · rw [List.mem_singleton] at hj
    have hm : matchingTodoJob snap.todo shn = false := by
      cases hmm : matchingTodoJob snap.todo shn
      · rfl
      · exact absurd (by simp [hmm]) h2
    have hb : snap.blockedShards.contains shn = false := by
      cases hbb : snap.blockedShards.contains shn
      · rfl
      · exact absurd (by simp only [hbb, Bool.or_true]) h2
    exact ⟨hm, hb,
      Or.inr ⟨hj, lt_of_le_of_ne (Nat.le_of_not_lt h3) (Ne.symm h1)⟩⟩
  · exact absurd hj (List.not_mem_nil j)

theorem enforceReplication_mem (snap : ReplSnapshot) (j : SJob)
    (hj : j ∈ enforceReplication snap) :
    matchingTodoJob snap.todo j.shard = false ∧
    snap.blockedShards.contains j.shard = false ∧
    ∃ rf servers, (rf, servers) ∈ shardOccurrences snap j.shard ∧
      ((j.jobType = "addFollower" ∧ servers.length < rf) ∨
       (j.jobType = "removeFollower" ∧ rf < servers.length)) := by
  simp only [enforceReplication, List.mem_flatMap] at hj
  obtain ⟨db, hdb, c, hc, hcol⟩ := hj
  simp only [collectionRepairJobs] at hcol
  rcases hrf : c.2.replicationFactor with _ | rf0 <;> rw [hrf] at hcol
  · simp at hcol
  by_cases hclone : c.2.distributeShardsLike
  · simp [hclone] at hcol
  simp only [hclone, Bool.false_eq_true, if_false, List.mem_flatMap] at hcol
  obtain ⟨sh, hsh, hjob⟩ := hcol
  obtain ⟨hm, hb, hcase⟩ := shardRepairJobs_mem hjob
  have hocc : ((if rf0 = 0 then snap.availableServers.length else rf0), sh.2) ∈
      shardOccurrences snap sh.1 := by
    simp only [shardOccurrences, List.mem_flatMap]
    refine ⟨db, hdb, c, hc, ?_⟩
    simp only [collectionShardOccurrences]
    rw [hrf]
    simp only [hclone, Bool.false_eq_true, if_false, List.mem_map]
    exact ⟨sh, List.mem_filter.mpr ⟨hsh, by simp⟩, rfl⟩
  rcases hcase with ⟨hjj, hlt⟩ | ⟨hjj, hgt⟩
  · subst hjj
    exact ⟨hm, hb, _, sh.2, hocc, Or.inl ⟨rfl, hlt⟩⟩
  · subst hjj
    exact ⟨hm, hb, _, sh.2, hocc, Or.inr ⟨rfl, hgt⟩⟩

end Supervision

namespace Supervision

theorem addFollowerCount_append (t1 t2 : List SJob) (s : String) :
    addFollowerCount (t1 ++ t2) s =
      addFollowerCount t1 s + addFollowerCount t2 s :=
  List.countP_append _ _ _

theorem addFollowerCount_via_filter (l : List SJob) (s : String) :
    addFollowerCount l s =
      List.countP (fun j => j.jobType == "addFollower")
        (l.filter (fun j => j.shard == s)) := by
  unfold addFollowerCount
  rw [List.countP_filter]

theorem enforceReplicationTick_stable (snap : ReplSnapshot) (s : String)
    (hm : matchingTodoJob snap.todo s = true) :
    (enforceReplication snap).filter (fun j => j.shard == s) = [] ∧
    matchingTodoJob (enforceReplicationTick snap).todo s = true ∧
    addFollowerCount (enforceReplicationTick snap).todo s =
      addFollowerCount snap.todo s := by
  have hnil : (enforceReplication snap).filter (fun j => j.shard == s) = [] := by
    rw [List.filter_eq_nil_iff]
    intro j hj hps
    have hme := (enforceReplication_mem snap j hj).1
    have hjs : j.shard = s := by simpa using hps
    rw [hjs, hm] at hme
    exact Bool.noConfusion hme
  refine ⟨hnil, ?_, ?_⟩
  · rw [matchingTodoJob] at hm ⊢
    simp only [enforceReplicationTick, List.any_append, hm, Bool.true_or]
  · simp only [enforceReplicationTick]
    rw [addFollowerCount_append]
    have hz : addFollowerCount (enforceReplication snap) s = 0 := by
      rw [addFollowerCount_via_filter, hnil]
      rfl
    rw [hz]
    exact Nat.add_zero _

theorem enforceReplicationIter_stable (n : Nat) (snap : ReplSnapshot)
    (s : String) (hm : matchingTodoJob snap.todo s = true)
    (hc : addFollowerCount snap.todo s = 1) :
    matchingTodoJob (enforceReplicationIter n snap).todo s = true ∧
    addFollowerCount (enforceReplicationIter n snap).todo s = 1 := by
  induction n generalizing snap with
  | zero => exact ⟨hm, hc⟩
  | succ n ih =>
    obtain ⟨-, hm2, hc2⟩ := enforceReplicationTick_stable snap s hm
    exact ih (enforceReplicationTick snap) hm2 (by rw [hc2, hc])

theorem enforceReplication_under_replicated (snap : ReplSnapshot) (s : String)
    (rf : Nat) (servers : List String)
    (huniq : shardOccurrences snap s = [(rf, servers)])
    (hunder : servers.length < rf)
    (hnoJob : matchingTodoJob snap.todo s = false)
    (hnotBlocked : snap.blockedShards.contains s = false) :
    (enforceReplication snap).filter (fun j => j.shard == s) =
      [{ jobType := "addFollower", shard := s }] := by
  rw [enforceReplication_filter, huniq]
  simp only [List.flatMap_cons, List.flatMap_nil, List.append_nil,
    shardRepairJobs, hnoJob, hnotBlocked]
  rw [if_pos (Nat.ne_of_lt hunder)]
  simp [hunder]

/-- C7: `enforceReplication` schedules an `addFollower` (resp.
`removeFollower`) job only for a shard of a non-clone collection whose
actual server count is below (resp. above) the effective replication
factor, with no `addFollower`/`removeFollower`/`moveShard` ToDo job for the
same shard already present and the shard not blocked; consequently
repeatedly invoking it against an under-replicated shard keeps exactly one
`addFollower` ToDo entry for that shard. -/
theorem enforceReplication_gating_and_single_addFollower
    (snap : ReplSnapshot) (s : String) (rf : Nat) (servers : List String)
    (huniq : shardOccurrences snap s = [(rf, servers)])
    (hunder : servers.length < rf)
    (hnoJob : matchingTodoJob snap.todo s = false)
    (hnotBlocked : snap.blockedShards.contains s = false)
    (hzero : addFollowerCount snap.todo s = 0) :
    (∀ snap2 : ReplSnapshot, ∀ j ∈ enforceReplication snap2,
       matchingTodoJob snap2.todo j.shard = false ∧
       snap2.blockedShards.contains j.shard = false ∧
       ∃ rf2 servers2, (rf2, servers2) ∈ shardOccurrences snap2 j.shard ∧
         ((j.jobType = "addFollower" ∧ servers2.length < rf2) ∨
          (j.jobType = "removeFollower" ∧ rf2 < servers2.length))) ∧
    (∀ n, addFollowerCount (enforceReplicationIter (n + 1) snap).todo s = 1) := by
  refine ⟨fun snap2 j hj => enforceReplication_mem snap2 j hj, ?_⟩
  intro n
  have hfilter := enforceReplication_under_replicated snap s rf servers huniq
    hunder hnoJob hnotBlocked
  have hmem : ({ jobType := "addFollower", shard := s } : SJob) ∈
      enforceReplication snap := by
    have hmf : ({ jobType := "addFollower", shard := s } : SJob) ∈
        (enforceReplication snap).filter (fun j => j.shard == s) := by
      rw [hfilter]
      exact List.mem_singleton.mpr rfl
    exact (List.mem_filter.mp hmf).1
  have hm1 : matchingTodoJob (enforceReplicationTick snap).todo s = true := by
    have hout : (enforceReplication snap).any (fun job =>
        (job.jobType == "addFollower" || job.jobType == "removeFollower" ||
         job.jobType == "moveShard") && job.shard == s) = true :=
      List.any_eq_true.mpr ⟨_, hmem, by simp⟩
    rw [matchingTodoJob]
    simp only [enforceReplicationTick, List.any_append, hout, Bool.or_true]
  have hc1 : addFollowerCount (enforceReplicationTick snap).todo s = 1 := by
    simp only [enforceReplicationTick]
    rw [addFollowerCount_append, hzero]
    rw [addFollowerCount_via_filter, hfilter]
    rfl
  exact (enforceReplicationIter_stable n (enforceReplicationTick snap) s
    hm1 hc1).2

/-- Witness for C7 at the concrete snapshot of scenario S5: replication
factor 3, two holders, empty ToDo. -/
theorem enforceReplication_gating_and_single_addFollower_witness :
    shardOccurrences replSnap0 "s1" = [(3, ["A", "B"])] ∧
    (["A", "B"] : List String).length < 3 ∧
    matchingTodoJob replSnap0.todo "s1" = false ∧
    replSnap0.blockedShards.contains "s1" = false ∧
    addFollowerCount replSnap0.todo "s1" = 0 ∧
    ((∀ snap2 : ReplSnapshot, ∀ j ∈ enforceReplication snap2,
       matchingTodoJob snap2.todo j.shard = false ∧
       snap2.blockedShards.contains j.shard = false ∧
       ∃ rf2 servers2, (rf2, servers2) ∈ shardOccurrences snap2 j.shard ∧
         ((j.jobType = "addFollower" ∧ servers2.length < rf2) ∨
          (j.jobType = "removeFollower" ∧ rf2 < servers2.length))) ∧
     (∀ n, addFollowerCount
        (enforceReplicationIter (n + 1) replSnap0).todo "s1" = 1)) :=
  ⟨by decide, by decide, by decide, by decide, by decide,
   enforceReplication_gating_and_single_addFollower replSnap0 "s1" 3 ["A", "B"]
     (by decide) (by decide) (by decide) (by decide) (by decide)⟩

end Supervision

namespace Supervision

/-- C9 counterexample: on a snapshot whose useless-failed list is non-empty
(server C is FAILED, leads no shard, and its absence violates no
replication factor), `shrinkCluster` schedules nothing at all — in
particular no `removeServer` job — because the `RemoveServer` invocation is
disabled in the source. -/
theorem shrinkCluster_useless_failed_counterexample :
    shrinkScan shrinkSnap0 = some (2, ["C"]) ∧
    shrinkCluster shrinkSnap0 = [] ∧
    ShrinkJob.removeServer "C" ∉ shrinkCluster shrinkSnap0 := by
  refine ⟨by decide, by decide, ?_⟩
  intro hmem
  have h : shrinkCluster shrinkSnap0 = [] := by decide
  rw [h] at hmem
  exact List.not_mem_nil _ hmem

/-- C9 amended: whenever the computed useless-failed list is non-empty (and
the branch is reached: ToDo and Pending empty, a target set below the
number of available servers, more than one available server),
`shrinkCluster` schedules no job at all and returns — the `removeServer`
invocation on the last entry is disabled in the code. -/
theorem shrinkCluster_useless_failed_schedules_nothing
    (snap : ShrinkSnapshot) (maxReplFact : Nat) (useless : List String)
    (htodo : snap.todoEmpty = true) (hpend : snap.pendingEmpty = true)
    (target : Nat) (htarget : snap.targetNumDBServers = some target)
    (hlt : target < snap.availServers.length)
    (hone : snap.availServers.length ≠ 1)
    (hscan : shrinkScan snap = some (maxReplFact, useless))
    (hne : useless ≠ []) :
    shrinkCluster snap = [] := by
  unfold shrinkCluster
  rw [htodo, hpend, htarget, hscan]
  simp only [Bool.not_true, Bool.or_self, Bool.false_eq_true, if_false]
  rw [if_pos hlt, if_neg hone]
  rw [if_pos (by
    cases useless with
    | nil => exact absurd rfl hne
    | cons a t => simp)]

/-- Witness for the amended C9 statement at the concrete snapshot. -/
theorem shrinkCluster_useless_failed_schedules_nothing_witness :
    shrinkSnap0.todoEmpty = true ∧
    shrinkSnap0.pendingEmpty = true ∧
    shrinkSnap0.targetNumDBServers = some 2 ∧
    2 < shrinkSnap0.availServers.length ∧
    shrinkSnap0.availServers.length ≠ 1 ∧
    shrinkScan shrinkSnap0 = some (2, ["C"]) ∧
    (["C"] : List String) ≠ [] ∧
    shrinkCluster shrinkSnap0 = [] :=
  ⟨rfl, rfl, rfl, by decide, by decide, by decide, by decide,
   shrinkCluster_useless_failed_schedules_nothing shrinkSnap0 2 ["C"]
     rfl rfl 2 rfl (by decide) (by decide) (by decide) (by decide)⟩

end Supervision

namespace MMFiles

/-- C10: an update whose patch slice has at most one member (only `_key`),
after the previous revision was found and the revision check passed,
returns success with the unmodified previous document and leaves the
collection state — primary index, secondary indexes, revision cache,
journal markers — unchanged. -/
theorem update_small_patch_returns_previous
    (isDBServer : Bool) (shardKeys : List String) (st : CollState)
    (newSlice : Slice) (options : OperationOptions) (revisionId : Nat)
    (key : String) (oldRevisionId : Nat) (oldDoc : Slice)
    (hlookup : lookupKey st key = some oldRevisionId)
    (hcache : lookupRevisionVPack st oldRevisionId = some oldDoc)
    (hrev : (!options.ignoreRevs &&
        !(checkRevisionOk (TRI_ExtractRevisionId newSlice)
          (extractRevFromDocument oldDoc))) = false)
    (hlen : newSlice.length ≤ 1) :
    update isDBServer shardKeys st newSlice options revisionId key =
      (.ok oldDoc, st) := by
  unfold update
  simp only [hlookup, hcache, hrev, Bool.false_eq_true, if_false,
    if_pos hlen]

/-- Witness for C10: a patch containing only `_key` leaves the concrete
collection untouched and returns the stored document. -/
theorem update_small_patch_returns_previous_witness :
    lookupKey collState0 "a" = some 1 ∧
    lookupRevisionVPack collState0 1 = some doc1 ∧
    (!options0.ignoreRevs &&
      !(checkRevisionOk (TRI_ExtractRevisionId [("_key", .str "a")])
        (extractRevFromDocument doc1))) = false ∧
    ([("_key", SVal.str "a")] : Slice).length ≤ 1 ∧
    update false [] collState0 [("_key", .str "a")] options0 2 "a" =
      (.ok doc1, collState0) :=
  ⟨by decide, by decide, by decide, by decide,
   update_small_patch_returns_previous false [] collState0
     [("_key", .str "a")] options0 2 "a" 1 doc1
     (by decide) (by decide) (by decide) (by decide)⟩

/-- C5: an update or replace whose merged post-image differs from the
stored pre-image in some shard-key attribute fails with
*must-not-change-sharding-attributes* and leaves the collection state
unchanged (shown on a DB server, outside recovery, once the previous
document was found and the revision check passed; a patch with at most one
member returns before merging and cannot change any attribute). -/
theorem shard_key_change_rejected
    (shardKeys : List String) (st : CollState)
    (patch replSlice : Slice) (options : OperationOptions) (revisionId : Nat)
    (key keyR : String) (oldRevisionId oldRevisionIdR : Nat)
    (oldDoc oldDocR : Slice)
    (hlookup : lookupKey st key = some oldRevisionId)
    (hcache : lookupRevisionVPack st oldRevisionId = some oldDoc)
    (hrev : (!options.ignoreRevs &&
        !(checkRevisionOk (TRI_ExtractRevisionId patch)
          (extractRevFromDocument oldDoc))) = false)
    (hlen : ¬patch.length ≤ 1)
    (hrm : options.recoveryMarker = none)
    (hchanged : shardKeysChanged shardKeys oldDoc
      (mergeObjectsForUpdate oldDoc patch revisionId) = true)
    (hkeyR : sliceGet replSlice "_key" = some (.str keyR))
    (hlookupR : lookupKey st keyR = some oldRevisionIdR)
    (hcacheR : lookupRevisionVPack st oldRevisionIdR = some oldDocR)
    (hrevR : (!options.ignoreRevs &&
        !(checkRevisionOk (TRI_ExtractRevisionId replSlice)
          (extractRevFromDocument oldDocR))) = false)
    (hchangedR : shardKeysChanged shardKeys oldDocR
      (newObjectForReplace oldDocR replSlice revisionId) = true) :
    update true shardKeys st patch options revisionId key =
      (.errMustNotChangeShardingAttributes, st) ∧
    replace true shardKeys st replSlice options revisionId =
      (.errMustNotChangeShardingAttributes, st) := by
  constructor
  · unfold update
    simp only [hlookup, hcache, hrev, Bool.false_eq_true, if_false,
      if_neg hlen, hrm]
    simp [hchanged]
  · unfold replace
    simp only [hkeyR, hlookupR, hcacheR, hrevR, Bool.false_eq_true, if_false]
    simp [hchangedR]

/-- Witness for C5: patching `x` (a shard key) from 1 to 2 is rejected by
both update and replace on the concrete collection, which is returned
unchanged. -/
theorem shard_key_change_rejected_witness :
    lookupKey collState0 "a" = some 1 ∧
    lookupRevisionVPack collState0 1 = some doc1 ∧
    ¬([("_key", SVal.str "a"), ("x", SVal.num 2)] : Slice).length ≤ 1 ∧
    options0.recoveryMarker = none ∧
    shardKeysChanged ["x"] doc1
      (mergeObjectsForUpdate doc1
        [("_key", .str "a"), ("x", .num 2)] 2) = true ∧
    shardKeysChanged ["x"] doc1
      (newObjectForReplace doc1
        [("_key", .str "a"), ("x", .num 2)] 2) = true ∧
    (update true ["x"] collState0 [("_key", .str "a"), ("x", .num 2)]
        options0 2 "a" =
      (.errMustNotChangeShardingAttributes, collState0) ∧
     replace true ["x"] collState0 [("_key", .str "a"), ("x", .num 2)]
        options0 2 =
      (.errMustNotChangeShardingAttributes, collState0)) :=
  ⟨by decide, by decide, by decide, rfl, by decide, by decide,
   shard_key_change_rejected ["x"] collState0
     [("_key", .str "a"), ("x", .num 2)] [("_key", .str "a"), ("x", .num 2)]
     options0 2 "a" "a" 1 1 doc1 doc1
     (by decide) (by decide) (by decide) (by decide) rfl (by decide)
     (by decide) (by decide) (by decide) (by decide) (by decide)⟩

end MMFiles

namespace MMFiles

theorem foldl_max_ge_acc (l : List TMarker) (acc : Nat) :
    acc ≤ l.foldl (fun a x => max a x.tick) acc := by
  induction l generalizing acc with
  | nil => exact Nat.le_refl acc
  | cons x t ih =>
    exact Nat.le_trans (Nat.le_max_left acc x.tick) (ih (max acc x.tick))

theorem foldl_max_le_mem {l : List TMarker} {m : TMarker} (hm : m ∈ l)
    (acc : Nat) :
    TMarker.tick m ≤ l.foldl (fun a x => max a x.tick) acc := by
  induction l generalizing acc with
  | nil => cases hm
  | cons x t ih =>
    rcases List.mem_cons.mp hm with rfl | hm2
    · exact Nat.le_trans (Nat.le_max_right acc m.tick) (foldl_max_ge_acc t _)
    · exact ih hm2 (max acc x.tick)

theorem tick_le_tickMax {f : DFile} {m : TMarker} (hm : m ∈ f.markers) :
    TMarker.tick m ≤ f.tickMax :=
  foldl_max_le_mem hm 0

theorem tick_le_dataMax {f : DFile} {m : TMarker} (hm : m ∈ f.markers)
    (hd : m.isDoc = true) :
    TMarker.tick m ≤ f.dataMax :=
  foldl_max_le_mem (List.mem_filter.mpr ⟨hm, hd⟩) 0

theorem find?_isDoc_le {ms : List TMarker} {m m0 : TMarker}
    (hs : ms.Pairwise (fun a b => TMarker.tick a < TMarker.tick b))
    (hm : m ∈ ms) (hd : m.isDoc = true)
    (hfind : ms.find? TMarker.isDoc = some m0) :
    TMarker.tick m0 ≤ TMarker.tick m := by
  induction ms with
  | nil => cases hm
  | cons x t ih =>
    by_cases hx : TMarker.isDoc x = true
    · rw [List.find?_cons_of_pos _ hx] at hfind
      have hx0 : x = m0 := by
        injection hfind
      subst hx0
      rcases List.mem_cons.mp hm with rfl | hm2
      · exact Nat.le_refl _
      · exact Nat.le_of_lt ((List.pairwise_cons.mp hs).1 m hm2)
    · rw [List.find?_cons_of_neg _ hx] at hfind
      rcases List.mem_cons.mp hm with rfl | hm2
      · exact absurd hd hx
      · exact ih (List.pairwise_cons.mp hs).2 hm2 hfind

theorem dataMin_le_tick {f : DFile}
    (hs : f.markers.Pairwise (fun a b => TMarker.tick a < TMarker.tick b))
    {m : TMarker} (hm : m ∈ f.markers) (hd : m.isDoc = true) :
    f.dataMin ≤ TMarker.tick m := by
  unfold DFile.dataMin
  rcases hfind : f.markers.find? TMarker.isDoc with _ | m0
  · exact absurd hd (List.find?_eq_none.mp hfind m hm)
  · simp only [hfind]
    exact find?_isDoc_le hs hm hd hfind

end MMFiles

namespace MMFiles

theorem no_data_of_dataMin_zero {f : DFile}
    (hpos : ∀ m ∈ f.markers, 1 ≤ TMarker.tick m)
    (h0 : f.dataMin = 0) {m : TMarker} (hm : m ∈ f.markers) :
    m.isDoc = false := by
  unfold DFile.dataMin at h0
  rcases hfind : f.markers.find? TMarker.isDoc with _ | m0
  · cases hd : TMarker.isDoc m
    · rfl
    · exact absurd hd (List.find?_eq_none.mp hfind m hm)
  · simp only [hfind] at h0
    have hmem := List.mem_of_find?_eq_some hfind
    have := hpos m0 hmem
    omega

theorem no_data_of_dataMax_zero {f : DFile}
    (hpos : ∀ m ∈ f.markers, 1 ≤ TMarker.tick m)
    (h0 : f.dataMax = 0) {m : TMarker} (hm : m ∈ f.markers) :
    m.isDoc = false := by
  cases hd : TMarker.isDoc m
  · rfl
  · have hle := tick_le_dataMax hm hd
    have := hpos m hm
    omega

theorem skipped_file_no_calls {f : DFile} (dataMin dataMax : Nat)
    (hs : f.markers.Pairwise (fun a b => TMarker.tick a < TMarker.tick b))
    (hpos : ∀ m ∈ f.markers, 1 ≤ TMarker.tick m)
    (hnp : ¬(¬(f.dataMin = 0 ∨ f.dataMax = 0) ∧
      ¬(dataMax < f.dataMin) ∧ ¬(dataMin > f.dataMax))) :
    f.markers.filter (inRangeDoc dataMin dataMax) = [] := by
  rw [List.filter_eq_nil_iff]
  intro m hm hr
  unfold inRangeDoc at hr
  simp only [Bool.and_eq_true, decide_eq_true_eq] at hr
  obtain ⟨⟨hd, hgt⟩, hle⟩ := hr
  rcases Classical.em (f.dataMin = 0 ∨ f.dataMax = 0) with hz | hz
  · rcases hz with hz | hz
    · exact absurd hd (by simp [no_data_of_dataMin_zero hpos hz hm])
    · exact absurd hd (by simp [no_data_of_dataMax_zero hpos hz hm])
  · rcases Classical.em (dataMax < f.dataMin) with hlt | hlt
    · have := dataMin_le_tick hs hm hd
      omega
    · have hC : dataMin > f.dataMax := by
        by_contra hc
        exact hnp ⟨hz, hlt, hc⟩
      have := tick_le_dataMax hm hd
      omega

end MMFiles

namespace MMFiles

theorem isData_eq_false_of_isBlank {m : TMarker} (h : m.isBlank = true) :
    m.isData = false := by
  cases m <;> simp_all [TMarker.isBlank, TMarker.isData]

theorem applyFileMarkers_split (dataMin dataMax tickMaxE : Nat)
    (isLast : Bool) (cb : Nat → TMarker → Bool) (ms : List TMarker)
    (hs : ms.Pairwise (fun a b => TMarker.tick a < TMarker.tick b))
    (hbound : ∀ m ∈ ms, TMarker.tick m ≤ tickMaxE) :
    ((∀ m ∈ ms.filter (inRangeData dataMin dataMax),
        cb (TMarker.tick m) m = true) →
      (applyFileMarkers dataMin dataMax tickMaxE isLast cb ms).1 =
        (ms.filter (inRangeData dataMin dataMax)).map
          (fun m => (m.tick, m)) ∧
      ((applyFileMarkers dataMin dataMax tickMaxE isLast cb ms).2 = none ∨
       ((applyFileMarkers dataMin dataMax tickMaxE isLast cb ms).2 =
          some false ∧
        (isLast = true ∨ ∃ m ∈ ms, dataMax ≤ TMarker.tick m)))) ∧
    (∀ l1 m0 l2,
      ms.filter (inRangeData dataMin dataMax) = l1 ++ m0 :: l2 →
      (∀ m ∈ l1, cb (TMarker.tick m) m = true) →
      cb (TMarker.tick m0) m0 = false →
      (applyFileMarkers dataMin dataMax tickMaxE isLast cb ms).1 =
        (l1 ++ [m0]).map (fun m => (m.tick, m)) ∧
      (applyFileMarkers dataMin dataMax tickMaxE isLast cb ms).2 =
        some (!(decide (dataMax ≤ TMarker.tick m0) ||
          (decide (tickMaxE ≤ TMarker.tick m0) && isLast)))) := by
  induction ms with
  | nil =>
    refine ⟨fun _ => ⟨rfl, Or.inl rfl⟩, ?_⟩
    intro l1 m0 l2 heq hT hm0
    rw [List.filter_nil] at heq
    exact absurd heq.symm (by simp)
  | cons m rest ih =>
    have hpc := List.pairwise_cons.mp hs
    have ihr := ih hpc.2 (fun x hx => hbound x (List.mem_cons_of_mem m hx))
    have hwiden : (isLast = true ∨ ∃ x ∈ rest, dataMax ≤ TMarker.tick x) →
        (isLast = true ∨ ∃ x ∈ m :: rest, dataMax ≤ TMarker.tick x) := by
      rintro (h | ⟨x, hx, hge⟩)
      · exact Or.inl h
      · exact Or.inr ⟨x, List.mem_cons_of_mem m hx, hge⟩
    by_cases hblank : TMarker.isBlank m = true
    · have hnd := isData_eq_false_of_isBlank hblank
      have hfeq : (m :: rest).filter (inRangeData dataMin dataMax) =
          rest.filter (inRangeData dataMin dataMax) :=
        List.filter_cons_of_neg (by simp [inRangeData, hnd])
      have hred : applyFileMarkers dataMin dataMax tickMaxE isLast cb
          (m :: rest) =
            applyFileMarkers dataMin dataMax tickMaxE isLast cb rest := by
        simp only [applyFileMarkers, hblank, if_true]
      constructor
      · intro hT
        rw [hfeq] at hT
        rw [hred, hfeq]
        refine ⟨(ihr.1 hT).1, ?_⟩
        rcases (ihr.1 hT).2 with h | ⟨ha, hb⟩
        · exact Or.inl h
        · exact Or.inr ⟨ha, hwiden hb⟩
      · intro l1 m0 l2 heq hT hm0
        rw [hfeq] at heq
        rw [hred]
        exact ihr.2 l1 m0 l2 heq hT hm0
    · by_cases h1 : TMarker.tick m ≤ dataMin
      · have hfeq : (m :: rest).filter (inRangeData dataMin dataMax) =
            rest.filter (inRangeData dataMin dataMax) :=
          List.filter_cons_of_neg (by
            unfold inRangeData
            have hx : ¬(dataMin < TMarker.tick m) := by omega
            simp [hx])
        have hred : applyFileMarkers dataMin dataMax tickMaxE isLast cb
            (m :: rest) =
              applyFileMarkers dataMin dataMax tickMaxE isLast cb rest := by
          simp only [applyFileMarkers, hblank, Bool.false_eq_true, if_false]
          rw [if_pos h1]
        constructor
        · intro hT
          rw [hfeq] at hT
          rw [hred, hfeq]
          refine ⟨(ihr.1 hT).1, ?_⟩
          rcases (ihr.1 hT).2 with h | ⟨ha, hb⟩
          · exact Or.inl h
          · exact Or.inr ⟨ha, hwiden hb⟩
        · intro l1 m0 l2 heq hT hm0
          rw [hfeq] at heq
          rw [hred]
          exact ihr.2 l1 m0 l2 heq hT hm0
      · by_cases h2 : TMarker.tick m > dataMax
        · have hrestnil : rest.filter (inRangeData dataMin dataMax) = [] := by
            rw [List.filter_eq_nil_iff]
            intro x hx hin
            have hlt := hpc.1 x hx
            unfold inRangeData at hin
            simp only [Bool.and_eq_true, decide_eq_true_eq] at hin
            omega
          have hfeq : (m :: rest).filter (inRangeData dataMin dataMax) =
              [] := by
            rw [List.filter_cons_of_neg (by
              unfold inRangeData
              have hx : ¬(TMarker.tick m ≤ dataMax) := by omega
              simp [hx]), hrestnil]
          have hred : applyFileMarkers dataMin dataMax tickMaxE isLast cb
              (m :: rest) = ([], some false) := by
            simp only [applyFileMarkers, hblank, Bool.false_eq_true, if_false]
            rw [if_neg h1, if_pos h2]
          constructor
          · intro hT
            rw [hred, hfeq]
            exact ⟨rfl, Or.inr ⟨rfl,
              Or.inr ⟨m, List.mem_cons_self m rest, Nat.le_of_lt h2⟩⟩⟩
          · intro l1 m0 l2 heq hT hm0
            rw [hfeq] at heq
            exact absurd heq.symm (by simp)
        · by_cases hdata : TMarker.isData m = true
          · have hnotd : (!TMarker.isData m) = false := by simp [hdata]
            have hkeep : inRangeData dataMin dataMax m = true := by
              unfold inRangeData
              have ha : dataMin < TMarker.tick m := by omega
              have hb : TMarker.tick m ≤ dataMax := by omega
              simp [hdata, ha, hb]
            have hfeq : (m :: rest).filter (inRangeData dataMin dataMax) =
                m :: rest.filter (inRangeData dataMin dataMax) :=
              List.filter_cons_of_pos hkeep
            by_cases h3 : TMarker.tick m ≥ dataMax ∨
                (TMarker.tick m ≥ tickMaxE ∧ isLast = true)
            · have hrestnil : rest.filter (inRangeData dataMin dataMax) =
                  [] := by
                rw [List.filter_eq_nil_iff]
                intro x hx hin
                have hlt := hpc.1 x hx
                unfold inRangeData at hin
                simp only [Bool.and_eq_true, decide_eq_true_eq] at hin
                rcases h3 with h3 | ⟨h3, -⟩
                · omega
                · have := hbound x (List.mem_cons_of_mem m hx)
                  omega
              have hred : applyFileMarkers dataMin dataMax tickMaxE isLast cb
                  (m :: rest) = ([(TMarker.tick m, m)], some false) := by
                simp only [applyFileMarkers, hblank, Bool.false_eq_true,
                  if_false]
                rw [if_neg h1, if_neg h2]
                simp only [hnotd, Bool.false_eq_true, if_false]
                rw [if_pos h3]
              have hX : (decide (dataMax ≤ TMarker.tick m) ||
                  (decide (tickMaxE ≤ TMarker.tick m) && isLast)) = true := by
                rcases h3 with h3 | ⟨h3a, h3b⟩
                · simp [h3]
                · simp [h3a, h3b]
              constructor
              · intro hT
                rw [hred, hfeq, hrestnil]
                refine ⟨rfl, Or.inr ⟨rfl, ?_⟩⟩
                rcases h3 with h3 | ⟨-, h3⟩
                · exact Or.inr ⟨m, List.mem_cons_self m rest, h3⟩
                · exact Or.inl h3
              · intro l1 m0 l2 heq hT hm0
                rw [hfeq, hrestnil] at heq
                rcases l1 with _ | ⟨x, l1x⟩
                · rw [List.nil_append] at heq
                  injection heq with h4 h5
                  subst h4
                  subst h5
                  rw [hred]
                  refine ⟨rfl, ?_⟩
                  rw [hX]
                  rfl
                · rw [List.cons_append] at heq
                  injection heq with h4 h5
                  exact absurd h5.symm (by simp)
            · cases hcb : cb (TMarker.tick m) m with
              | false =>
                have hred : applyFileMarkers dataMin dataMax tickMaxE isLast
                    cb (m :: rest) = ([(TMarker.tick m, m)], some true) := by
                  simp only [applyFileMarkers, hblank, Bool.false_eq_true,
                    if_false]
                  rw [if_neg h1, if_neg h2]
                  simp only [hnotd, Bool.false_eq_true, if_false]
                  rw [if_neg h3, if_pos (by simp [hcb])]
                have hX : (decide (dataMax ≤ TMarker.tick m) ||
                    (decide (tickMaxE ≤ TMarker.tick m) && isLast)) =
                      false := by
                  cases hd1 : decide (dataMax ≤ TMarker.tick m) with
                  | true => exact absurd (Or.inl (by simpa using hd1)) h3
                  | false =>
                    cases hd2 : decide (tickMaxE ≤ TMarker.tick m) with
                    | false => rfl
                    | true =>
                      cases hL : isLast with
                      | false => rfl
                      | true =>
                        exact absurd (Or.inr ⟨by simpa using hd2, hL⟩) h3
                constructor
                · intro hT
                  have := hT m (by rw [hfeq]; exact List.mem_cons_self m _)
                  rw [hcb] at this
                  exact Bool.noConfusion this
                · intro l1 m0 l2 heq hT hm0
                  rw [hfeq] at heq
                  rcases l1 with _ | ⟨x, l1x⟩
                  · rw [List.nil_append] at heq
                    injection heq with h4 h5
                    subst h4
                    rw [hred]
                    refine ⟨rfl, ?_⟩
                    rw [hX]
                    rfl
                  · rw [List.cons_append] at heq
                    injection heq with h4 h5
                    subst h4
                    have := hT m (List.mem_cons_self m l1x)
                    rw [hcb] at this
                    exact Bool.noConfusion this
              | true =>
                have hred : applyFileMarkers dataMin dataMax tickMaxE isLast
                    cb (m :: rest) =
                      ((TMarker.tick m, m) ::
                        (applyFileMarkers dataMin dataMax tickMaxE isLast cb
                          rest).1,
                       (applyFileMarkers dataMin dataMax tickMaxE isLast cb
                          rest).2) := by
                  simp only [applyFileMarkers, hblank, Bool.false_eq_true,
                    if_false]
                  rw [if_neg h1, if_neg h2]
                  simp only [hnotd, Bool.false_eq_true, if_false]
                  rw [if_neg h3, if_neg (by simp [hcb])]
                constructor
                · intro hT
                  have hTr : ∀ x ∈ rest.filter (inRangeData dataMin dataMax),
                      cb (TMarker.tick x) x = true := by
                    intro x hx
                    exact hT x (by rw [hfeq]; exact List.mem_cons_of_mem m hx)
                  rw [hred, hfeq]
                  refine ⟨?_, ?_⟩
                  · rw [List.map_cons, (ihr.1 hTr).1]
                  · rcases (ihr.1 hTr).2 with h | ⟨ha, hb⟩
                    · exact Or.inl h
                    · exact Or.inr ⟨ha, hwiden hb⟩
                · intro l1 m0 l2 heq hT hm0
                  rw [hfeq] at heq
                  rcases l1 with _ | ⟨x, l1x⟩
                  · rw [List.nil_append] at heq
                    injection heq with h4 h5
                    subst h4
                    rw [hcb] at hm0
                    exact Bool.noConfusion hm0
                  · rw [List.cons_append] at heq
                    injection heq with h4 h5
                    subst h4
                    have hrec := ihr.2 l1x m0 l2 h5
                      (fun y hy => hT y (List.mem_cons_of_mem m hy)) hm0
                    rw [hred]
                    refine ⟨?_, hrec.2⟩
                    rw [List.cons_append, List.map_cons, ← hrec.1]
          · have hnotd : (!TMarker.isData m) = true := by
              simp only [Bool.not_eq_true, Bool.not_eq_true'] at hdata ⊢
              exact hdata
            have hfeq : (m :: rest).filter (inRangeData dataMin dataMax) =
                rest.filter (inRangeData dataMin dataMax) :=
              List.filter_cons_of_neg (by
                unfold inRangeData
                simp [hdata])
            by_cases h3 : TMarker.tick m ≥ dataMax ∨
                (TMarker.tick m > tickMaxE ∧ isLast = true)
            · have hrestnil : rest.filter (inRangeData dataMin dataMax) =
                  [] := by
                rw [List.filter_eq_nil_iff]
                intro x hx hin
                have hlt := hpc.1 x hx
                unfold inRangeData at hin
                simp only [Bool.and_eq_true, decide_eq_true_eq] at hin
                rcases h3 with h3 | ⟨h3, -⟩
                · omega
                · have := hbound m (List.mem_cons_self m rest)
                  omega
              have hred : applyFileMarkers dataMin dataMax tickMaxE isLast cb
                  (m :: rest) = ([], some false) := by
                simp only [applyFileMarkers, hblank, Bool.false_eq_true,
                  if_false]
                rw [if_neg h1, if_neg h2]
                simp only [hnotd, if_true]
                rw [if_pos h3]
              constructor
              · intro hT
                rw [hred, hfeq, hrestnil]
                refine ⟨rfl, Or.inr ⟨rfl, ?_⟩⟩
                rcases h3 with h3 | ⟨h3, hl⟩
                · exact Or.inr ⟨m, List.mem_cons_self m rest, h3⟩
                · have := hbound m (List.mem_cons_self m rest)
                  omega
              · intro l1 m0 l2 heq hT hm0
                rw [hfeq, hrestnil] at heq
                exact absurd heq.symm (by simp)
            · have hred : applyFileMarkers dataMin dataMax tickMaxE isLast cb
                  (m :: rest) =
                    applyFileMarkers dataMin dataMax tickMaxE isLast cb
                      rest := by
                simp only [applyFileMarkers, hblank, Bool.false_eq_true,
                  if_false]
                rw [if_neg h1, if_neg h2]
                simp only [hnotd, if_true]
                rw [if_neg h3]
              constructor
              · intro hT
                rw [hfeq] at hT
                rw [hred, hfeq]
                refine ⟨(ihr.1 hT).1, ?_⟩
                rcases (ihr.1 hT).2 with h | ⟨ha, hb⟩
                · exact Or.inl h
                · exact Or.inr ⟨ha, hwiden hb⟩
              · intro l1 m0 l2 heq hT hm0
                rw [hfeq] at heq
                rw [hred]
                exact ihr.2 l1 m0 l2 heq hT hm0

theorem sublist_flatMap_markers {l1 l2 : List DFile} (h : l1.Sublist l2) :
    (l1.flatMap DFile.markers).Sublist (l2.flatMap DFile.markers) := by
  induction h with
  | slnil => exact List.Sublist.refl _
  | cons f _ ih =>
    rw [List.flatMap_cons]
    exact ih.trans (List.sublist_append_right _ _)
  | cons₂ f _ ih =>
    rw [List.flatMap_cons, List.flatMap_cons]
    exact List.Sublist.append (List.Sublist.refl _) ih

theorem datafilesInRange_filter_eq (files : List DFile)
    (dataMin dataMax : Nat)
    (hs : (files.flatMap DFile.markers).Pairwise
      (fun a b => TMarker.tick a < TMarker.tick b))
    (hpos : ∀ m ∈ files.flatMap DFile.markers, 1 ≤ TMarker.tick m) :
    ((datafilesInRange files dataMin dataMax).flatMap DFile.markers).filter
        (inRangeDoc dataMin dataMax) =
      (files.flatMap DFile.markers).filter (inRangeDoc dataMin dataMax) := by
  unfold datafilesInRange
  induction files with
  | nil => rfl
  | cons f rest ih =>
    rw [List.flatMap_cons, List.pairwise_append] at hs
    obtain ⟨hsf, hsr, -⟩ := hs
    have hposf : ∀ m ∈ f.markers, 1 ≤ TMarker.tick m := fun m hm =>
      hpos m (by rw [List.flatMap_cons]; exact List.mem_append_left _ hm)
    have hposr : ∀ m ∈ rest.flatMap DFile.markers, 1 ≤ TMarker.tick m :=
      fun m hm =>
        hpos m (by rw [List.flatMap_cons]; exact List.mem_append_right _ hm)
    by_cases hp : (¬(f.dataMin = 0 ∨ f.dataMax = 0) ∧
        ¬(dataMax < f.dataMin) ∧ ¬(dataMin > f.dataMax))
    · rw [List.filter_cons_of_pos (by simpa using hp), List.flatMap_cons,
        List.flatMap_cons, List.filter_append, List.filter_append,
        ih hsr hposr]
    · rw [List.filter_cons_of_neg (by simpa using hp), List.flatMap_cons,
        List.filter_append, skipped_file_no_calls dataMin dataMax hsf hposf hp,
        List.nil_append, ih hsr hposr]

theorem all_true_or_first_false (p : TMarker → Bool) (l : List TMarker) :
    (∀ m ∈ l, p m = true) ∨
      ∃ l1 m0 l2, l = l1 ++ m0 :: l2 ∧ (∀ m ∈ l1, p m = true) ∧
        p m0 = false := by
  induction l with
  | nil => exact Or.inl (fun m hm => absurd hm (List.not_mem_nil m))
  | cons x t ih =>
    cases hx : p x with
    | false =>
      exact Or.inr ⟨[], x, t, rfl,
        fun m hm => absurd hm (List.not_mem_nil m), hx⟩
    | true =>
      rcases ih with hall | ⟨l1, m0, l2, heq, hT, hm⟩
      · refine Or.inl ?_
        intro m hm
        rcases List.mem_cons.mp hm with rfl | hm2
        · exact hx
        · exact hall m hm2
      · refine Or.inr ⟨x :: l1, m0, l2, by rw [heq, List.cons_append], ?_, hm⟩
        intro m hm2
        rcases List.mem_cons.mp hm2 with rfl | hm3
        · exact hx
        · exact hT m hm3

theorem selected_markers_ne_nil {files : List DFile} {dataMin dataMax : Nat}
    {f : DFile} (hf : f ∈ datafilesInRange files dataMin dataMax) :
    f.markers ≠ [] := by
  unfold datafilesInRange at hf
  have hp := (List.mem_filter.mp hf).2
  rw [decide_eq_true_eq] at hp
  intro hnil
  have h0 : f.dataMin = 0 := by
    unfold DFile.dataMin
    rw [hnil]
    rfl
  exact hp.1 (Or.inl h0)

theorem applyFilesLoop_split (dataMin dataMax : Nat)
    (cb : Nat → TMarker → Bool) (gs : List DFile)
    (hs : (gs.flatMap DFile.markers).Pairwise
      (fun a b => TMarker.tick a < TMarker.tick b))
    (hne : ∀ f ∈ gs, f.markers ≠ []) :
    ((∀ m ∈ (gs.flatMap DFile.markers).filter (inRangeData dataMin dataMax),
        cb (TMarker.tick m) m = true) →
      (applyFilesLoop dataMin dataMax cb gs).1 =
        ((gs.flatMap DFile.markers).filter
          (inRangeData dataMin dataMax)).map (fun m => (m.tick, m)) ∧
      (applyFilesLoop dataMin dataMax cb gs).2 = false) ∧
    (∀ l1 m0 l2,
      (gs.flatMap DFile.markers).filter (inRangeData dataMin dataMax) =
        l1 ++ m0 :: l2 →
      (∀ m ∈ l1, cb (TMarker.tick m) m = true) →
      cb (TMarker.tick m0) m0 = false →
      (applyFilesLoop dataMin dataMax cb gs).1 =
        (l1 ++ [m0]).map (fun m => (m.tick, m)) ∧
      (applyFilesLoop dataMin dataMax cb gs).2 =
        !(lastAvailableIn gs dataMax (TMarker.tick m0))) := by
  induction gs with
  | nil =>
    refine ⟨fun _ => ⟨rfl, rfl⟩, ?_⟩
    intro l1 m0 l2 heq hT hm0
    simp at heq
  | cons f rest ih =>
    rw [List.flatMap_cons, List.pairwise_append] at hs
    obtain ⟨hsf, hsr, hcross⟩ := hs
    have hner : ∀ g ∈ rest, g.markers ≠ [] :=
      fun g hg => hne g (List.mem_cons_of_mem f hg)
    have ihr := ih hsr hner
    have hfsplit := applyFileMarkers_split dataMin dataMax f.tickMax
      rest.isEmpty cb f.markers hsf (fun m hm => tick_le_tickMax hm)
    have hfilterapp : ((f :: rest).flatMap DFile.markers).filter
        (inRangeData dataMin dataMax) =
      f.markers.filter (inRangeData dataMin dataMax) ++
        (rest.flatMap DFile.markers).filter (inRangeData dataMin dataMax) := by
      rw [List.flatMap_cons, List.filter_append]
    constructor
    · intro hT
      rw [hfilterapp] at hT
      have hTf : ∀ m ∈ f.markers.filter (inRangeData dataMin dataMax),
          cb (TMarker.tick m) m = true :=
        fun m hm => hT m (List.mem_append_left _ hm)
      have hTr : ∀ m ∈ (rest.flatMap DFile.markers).filter
          (inRangeData dataMin dataMax), cb (TMarker.tick m) m = true :=
        fun m hm => hT m (List.mem_append_right _ hm)
      have hf := hfsplit.1 hTf
      rcases hf.2 with hnone | ⟨hfalse, hreason⟩
      · simp only [applyFilesLoop, hnone]
        refine ⟨?_, (ihr.1 hTr).2⟩
        rw [hf.1, (ihr.1 hTr).1, hfilterapp, List.map_append]
      · simp only [applyFilesLoop, hfalse]
        have hrestnil : (rest.flatMap DFile.markers).filter
            (inRangeData dataMin dataMax) = [] := by
          rcases hreason with hlast | ⟨m, hm, hge⟩
          · rw [List.isEmpty_iff.mp hlast]
            rfl
          · rw [List.filter_eq_nil_iff]
            intro x hx hin
            have := hcross m hm x hx
            unfold inRangeData at hin
            simp only [Bool.and_eq_true, decide_eq_true_eq] at hin
            omega
        refine ⟨?_, by trivial⟩
        rw [hf.1, hfilterapp, hrestnil, List.append_nil]
    · intro l1 m0 l2 heq hT hm0
      rw [hfilterapp] at heq
      have hrestcase : ∀ a',
          l1 = f.markers.filter (inRangeData dataMin dataMax) ++ a' →
          (rest.flatMap DFile.markers).filter (inRangeData dataMin dataMax) =
            a' ++ m0 :: l2 →
          (applyFilesLoop dataMin dataMax cb (f :: rest)).1 =
            (l1 ++ [m0]).map (fun m => (m.tick, m)) ∧
          (applyFilesLoop dataMin dataMax cb (f :: rest)).2 =
            !(lastAvailableIn (f :: rest) dataMax (TMarker.tick m0)) := by
        intro a' ha1 ha2
        have hTf : ∀ m ∈ f.markers.filter (inRangeData dataMin dataMax),
            cb (TMarker.tick m) m = true := by
          intro m hm
          exact hT m (by rw [ha1]; exact List.mem_append_left _ hm)
        have hf := hfsplit.1 hTf
        have hrestne : rest ≠ [] := by
          intro hrnil
          rw [hrnil] at ha2
          simp at ha2
        rcases hf.2 with hnone | ⟨hfalse, hreason⟩
        · simp only [applyFilesLoop, hnone]
          have hprefT : ∀ m ∈ a', cb (TMarker.tick m) m = true := by
            intro m hm
            exact hT m (by rw [ha1]; exact List.mem_append_right _ hm)
          have hrec := ihr.2 a' m0 l2 ha2 hprefT hm0
          refine ⟨?_, ?_⟩
          · rw [hf.1, hrec.1, ha1]
            simp [List.map_append]
          · rw [hrec.2]
            have hlaeq : lastAvailableIn (f :: rest) dataMax
                (TMarker.tick m0) =
                  lastAvailableIn rest dataMax (TMarker.tick m0) := by
              unfold lastAvailableIn
              cases rest with
              | nil => exact absurd rfl hrestne
              | cons g rs => rw [List.getLast?_cons_cons]
            rw [hlaeq]
        · exfalso
          rcases hreason with hlast | ⟨m, hm, hge⟩
          · exact hrestne (List.isEmpty_iff.mp hlast)
          · have hm0mem : m0 ∈ (rest.flatMap DFile.markers).filter
                (inRangeData dataMin dataMax) := by
              rw [ha2]
              exact List.mem_append_right _ (List.mem_cons_self _ _)
            have hm0r := List.mem_filter.mp hm0mem
            have hcr := hcross m hm m0 hm0r.1
            have hin := hm0r.2
            unfold inRangeData at hin
            simp only [Bool.and_eq_true, decide_eq_true_eq] at hin
            omega
      rcases List.append_eq_append_iff.mp heq with ⟨a', ha1, ha2⟩ |
        ⟨c', hc1, hc2⟩
      · exact hrestcase a' ha1 ha2
      · rcases c' with _ | ⟨x, cx⟩
        · refine hrestcase [] ?_ ?_
          · rw [List.append_nil] at hc1
            rw [List.append_nil]
            exact hc1.symm
          · rw [List.nil_append] at hc2
            rw [List.nil_append]
            exact hc2.symm
        · rw [List.cons_append] at hc2
          injection hc2 with h4 h5
          subst h4
          have hm0f : m0 ∈ f.markers :=
            (List.mem_filter.mp (by
              rw [hc1]
              exact List.mem_append_right _ (List.mem_cons_self _ _))).1
          have hfr := hfsplit.2 l1 m0 cx hc1 hT hm0
          simp only [applyFilesLoop, hfr.2]
          refine ⟨hfr.1, ?_⟩
          cases rest with
          | nil =>
            simp [lastAvailableIn, List.getLast?_singleton]
          | cons g rs =>
            have hglne : (g :: rs) ≠ ([] : List DFile) := by simp
            have hfl : (g :: rs).getLast? =
                some ((g :: rs).getLast hglne) :=
              List.getLast?_eq_getLast _ hglne
            have hflmem : (g :: rs).getLast hglne ∈ g :: rs :=
              List.getLast_mem hglne
            rcases hxm : ((g :: rs).getLast hglne).markers with _ | ⟨x2, xs⟩
            · exact absurd hxm (hner _ hflmem)
            · have hxmem : x2 ∈ ((g :: rs).getLast hglne).markers := by
                rw [hxm]
                exact List.mem_cons_self _ _
              have h1 : TMarker.tick m0 < TMarker.tick x2 :=
                hcross m0 hm0f x2
                  (List.mem_flatMap.mpr ⟨(g :: rs).getLast hglne, hflmem,
                    hxmem⟩)
              have h2 : TMarker.tick x2 ≤
                  ((g :: rs).getLast hglne).tickMax :=
                tick_le_tickMax hxmem
              have hd2 : decide (((g :: rs).getLast hglne).tickMax ≤
                  TMarker.tick m0) = false := by
                simp only [decide_eq_false_iff_not]
                omega
              simp [lastAvailableIn, List.getLast?_cons_cons, hfl, hd2]

/-- C8 counterexample, refuting two aspects of the claim: (i) with a single
in-range document marker whose tick equals `dataMax`, a callback that
returns false is invoked once, yet `applyForTickRange` returns
*hasMore = false* (the last-available-marker check fires before the abort
check), contradicting the claim that a false callback return always yields
*hasMore = true*; (ii) a file holding only a remove marker has zero
`_dataMin`/`_dataMax` summaries (`OpenIterator` maintains them for document
markers only), so `datafilesInRange` skips the file and its in-range remove
marker is never delivered to the callback, contradicting the claimed exact
enumeration of all in-range document and remove markers. -/
theorem applyForTickRange_abort_counterexample :
    ((applyForTickRange tickFiles1 0 5 (fun _ _ => false)).1 =
      [(5, TMarker.doc 5)] ∧
    ((fun (_ : Nat) (_ : TMarker) => false) 5 (TMarker.doc 5)) = false ∧
    (applyForTickRange tickFiles1 0 5 (fun _ _ => false)).2 = false) ∧
    (TMarker.rem 3 ∈ tickFiles2.flatMap DFile.markers ∧
     inRangeData 0 5 (TMarker.rem 3) = true ∧
     (applyForTickRange tickFiles2 0 5 (fun _ _ => true)).1 = []) :=
  ⟨⟨by decide, rfl, by decide⟩, by decide, by decide, by decide⟩

/-- **C8 (amended).** Over datafiles whose markers carry positive, globally
strictly increasing ticks, `applyForTickRange` selects the datafiles whose
document-marker summaries overlap the requested range — a selection that
keeps every in-range document marker, though remove markers lying in
skipped files are not delivered — and scans the selected files in order.
For every callback, either the callback returns true on all in-range data
markers of the selected files, or that marker list splits at a first false
return.  In the first case the callback is invoked on exactly those markers
in file-then-offset order and *hasMore = false* is returned; in the second,
iteration stops with the false-returning invocation as the last one, and
*hasMore = true* is returned unless the aborting marker was the last
available one (its tick reaches `dataMax`, or the tick maximum of the last
selected file), in which case *hasMore = false* is returned. -/
theorem applyForTickRange_calls_exact_and_abort
    (files : List DFile) (dataMin dataMax : Nat)
    (hs : (files.flatMap DFile.markers).Pairwise
      (fun a b => TMarker.tick a < TMarker.tick b))
    (hpos : ∀ m ∈ files.flatMap DFile.markers, 1 ≤ TMarker.tick m) :
    (((datafilesInRange files dataMin dataMax).flatMap DFile.markers).filter
        (inRangeDoc dataMin dataMax) =
      (files.flatMap DFile.markers).filter (inRangeDoc dataMin dataMax)) ∧
    (∀ cb,
      ((∀ m ∈ ((datafilesInRange files dataMin dataMax).flatMap
            DFile.markers).filter (inRangeData dataMin dataMax),
          cb (TMarker.tick m) m = true) ∨
       (∃ l1 m0 l2,
         ((datafilesInRange files dataMin dataMax).flatMap
            DFile.markers).filter (inRangeData dataMin dataMax) =
           l1 ++ m0 :: l2 ∧
         (∀ m ∈ l1, cb (TMarker.tick m) m = true) ∧
         cb (TMarker.tick m0) m0 = false)) ∧
      ((∀ m ∈ ((datafilesInRange files dataMin dataMax).flatMap
            DFile.markers).filter (inRangeData dataMin dataMax),
          cb (TMarker.tick m) m = true) →
        (applyForTickRange files dataMin dataMax cb).1 =
          (((datafilesInRange files dataMin dataMax).flatMap
            DFile.markers).filter (inRangeData dataMin dataMax)).map
              (fun m => (m.tick, m)) ∧
        (applyForTickRange files dataMin dataMax cb).2 = false) ∧
      (∀ l1 m0 l2,
        ((datafilesInRange files dataMin dataMax).flatMap
          DFile.markers).filter (inRangeData dataMin dataMax) =
            l1 ++ m0 :: l2 →
        (∀ m ∈ l1, cb (TMarker.tick m) m = true) →
        cb (TMarker.tick m0) m0 = false →
        (applyForTickRange files dataMin dataMax cb).1 =
          (l1 ++ [m0]).map (fun m => (m.tick, m)) ∧
        (applyForTickRange files dataMin dataMax cb).2 =
          !(lastAvailableIn (datafilesInRange files dataMin dataMax)
            dataMax (TMarker.tick m0)))) := by
  have hsel : ((datafilesInRange files dataMin dataMax).flatMap
      DFile.markers).Pairwise (fun a b => TMarker.tick a < TMarker.tick b) :=
    List.Pairwise.sublist
      (sublist_flatMap_markers (List.filter_sublist files)) hs
  have hne : ∀ f ∈ datafilesInRange files dataMin dataMax, f.markers ≠ [] :=
    fun f hf => selected_markers_ne_nil hf
  refine ⟨datafilesInRange_filter_eq files dataMin dataMax hs hpos, ?_⟩
  intro cb
  have hloop := applyFilesLoop_split dataMin dataMax cb
    (datafilesInRange files dataMin dataMax) hsel hne
  exact ⟨all_true_or_first_false (fun m => cb (TMarker.tick m) m) _,
    hloop.1, hloop.2⟩

/-- Witness for the amended C8 statement on concrete datafiles. -/
theorem applyForTickRange_calls_exact_and_abort_witness :
    ((tickFiles0.flatMap DFile.markers).Pairwise
      (fun a b => TMarker.tick a < TMarker.tick b)) ∧
    (∀ m ∈ tickFiles0.flatMap DFile.markers, 1 ≤ TMarker.tick m) ∧
    ((((datafilesInRange tickFiles0 1 4).flatMap DFile.markers).filter
        (inRangeDoc 1 4) =
      (tickFiles0.flatMap DFile.markers).filter (inRangeDoc 1 4)) ∧
    (∀ cb,
      ((∀ m ∈ ((datafilesInRange tickFiles0 1 4).flatMap
            DFile.markers).filter (inRangeData 1 4),
          cb (TMarker.tick m) m = true) ∨
       (∃ l1 m0 l2,
         ((datafilesInRange tickFiles0 1 4).flatMap
            DFile.markers).filter (inRangeData 1 4) =
           l1 ++ m0 :: l2 ∧
         (∀ m ∈ l1, cb (TMarker.tick m) m = true) ∧
         cb (TMarker.tick m0) m0 = false)) ∧
      ((∀ m ∈ ((datafilesInRange tickFiles0 1 4).flatMap
            DFile.markers).filter (inRangeData 1 4),
          cb (TMarker.tick m) m = true) →
        (applyForTickRange tickFiles0 1 4 cb).1 =
          (((datafilesInRange tickFiles0 1 4).flatMap
            DFile.markers).filter (inRangeData 1 4)).map
              (fun m => (m.tick, m)) ∧
        (applyForTickRange tickFiles0 1 4 cb).2 = false) ∧
      (∀ l1 m0 l2,
        ((datafilesInRange tickFiles0 1 4).flatMap
          DFile.markers).filter (inRangeData 1 4) =
            l1 ++ m0 :: l2 →
        (∀ m ∈ l1, cb (TMarker.tick m) m = true) →
        cb (TMarker.tick m0) m0 = false →
        (applyForTickRange tickFiles0 1 4 cb).1 =
          (l1 ++ [m0]).map (fun m => (m.tick, m)) ∧
        (applyForTickRange tickFiles0 1 4 cb).2 =
          !(lastAvailableIn (datafilesInRange tickFiles0 1 4)
            4 (TMarker.tick m0))))) :=
  ⟨by decide, by decide,
   applyForTickRange_calls_exact_and_abort tickFiles0 1 4
     (by decide) (by decide)⟩

theorem lastRev_append_single (k : String) (pre : List RMarker)
    (m : RMarker) :
    lastRev k (pre ++ [m]) =
      if RMarker.key m = k then
        (match m with
         | .doc _ r => some r
         | .rem _ _ => none)
      else lastRev k pre := by
  unfold lastRev
  rw [List.foldl_append]
  rfl

theorem lastRev_mem_aux (k : String) (ms : List RMarker) (acc : Option Nat)
    (r : Nat)
    (h : ms.foldl (fun acc m =>
      if RMarker.key m = k then
        (match m with
         | .doc _ r => some r
         | .rem _ _ => none)
      else acc) acc = some r) :
    RMarker.doc k r ∈ ms ∨ acc = some r := by
  induction ms generalizing acc with
  | nil => exact Or.inr h
  | cons m rest ih =>
    rw [List.foldl_cons] at h
    rcases ih _ h with hmem | hacc
    · exact Or.inl (List.mem_cons_of_mem _ hmem)
    · by_cases hkey : RMarker.key m = k
      · rw [if_pos hkey] at hacc
        cases m with
        | doc k0 r0 =>
          have hk : k0 = k := hkey
          have hr : r0 = r := by
            simpa using hacc
          subst hk
          subst hr
          exact Or.inl (List.mem_cons_self _ _)
        | rem k0 r0 => simp at hacc
      · rw [if_neg hkey] at hacc
        exact Or.inr hacc

theorem lastRev_mem {k : String} {ms : List RMarker} {r : Nat}
    (h : lastRev k ms = some r) : RMarker.doc k r ∈ ms := by
  rcases lastRev_mem_aux k ms none r h with hmem | hacc
  · exact hmem
  · exact Option.noConfusion hacc

theorem openLookupKey_append_of_none {p : List (String × Nat)} {k' : String}
    (k : String) (r : Nat) (h : openLookupKey p k' = none) :
    openLookupKey (p ++ [(k, r)]) k' =
      if k == k' then some r else none := by
  unfold openLookupKey at h ⊢
  rw [List.find?_append]
  rcases hf : p.find? (fun (e : String × Nat) => e.1 == k') with _ | e
  · by_cases hk : k == k'
    · simp [hk]
    · simp [hk]
  · rw [hf] at h
    simp at h

theorem openLookupKey_append_of_some {p : List (String × Nat)} {k' : String}
    {v : Nat} (k : String) (r : Nat) (h : openLookupKey p k' = some v) :
    openLookupKey (p ++ [(k, r)]) k' = some v := by
  unfold openLookupKey at h ⊢
  rw [List.find?_append]
  rcases hf : p.find? (fun (e : String × Nat) => e.1 == k') with _ | e
  · rw [hf] at h
    simp at h
  · rw [hf] at h
    exact h

theorem openLookupKey_some_mem {p : List (String × Nat)} {k : String}
    {v : Nat} (h : openLookupKey p k = some v) : (k, v) ∈ p := by
  unfold openLookupKey at h
  rcases hf : p.find? (fun (e : String × Nat) => e.1 == k) with _ | e
  · rw [hf] at h
    simp at h
  · rw [hf] at h
    simp at h
    have hkey := List.find?_some hf
    have hmem := List.mem_of_find?_eq_some hf
    have hk : e.1 = k := by simpa using hkey
    have he : e = (k, v) := by
      cases e
      simp_all
    rw [← he]
    exact hmem

theorem openLookupKey_none_keys {p : List (String × Nat)} {k : String}
    (h : openLookupKey p k = none) : ∀ e ∈ p, (e.1 == k) = false := by
  unfold openLookupKey at h
  rcases hf : p.find? (fun (e : String × Nat) => e.1 == k) with _ | e
  · intro e he
    have := List.find?_eq_none.mp hf e he
    simpa using this
  · rw [hf] at h
    simp at h

theorem openLookupKey_map_update_self {p : List (String × Nat)} {k : String}
    {v : Nat} (r : Nat) (h : openLookupKey p k = some v) :
    openLookupKey
      (p.map (fun (e : String × Nat) => if e.1 == k then (e.1, r) else e))
      k = some r := by
  induction p with
  | nil => simp [openLookupKey] at h
  | cons e t ih =>
    by_cases he : (e.1 == k) = true
    · unfold openLookupKey
      rw [List.map_cons]
      have hhead : (if e.1 == k then (e.1, r) else e) = (e.1, r) := by
        simp [he]
      rw [hhead, List.find?_cons_of_pos _ (by simpa using he)]
      rfl
    · unfold openLookupKey at h ⊢
      rw [List.map_cons, if_neg (by simp_all), List.find?_cons_of_neg _
        (by simp_all)]
      rw [List.find?_cons_of_neg _ (by simp_all)] at h
      exact ih h

theorem openLookupKey_map_update_other {p : List (String × Nat)}
    {k k' : String} (r : Nat) (hne : k' ≠ k) :
    openLookupKey
      (p.map (fun (e : String × Nat) => if e.1 == k then (e.1, r) else e))
      k' = openLookupKey p k' := by
  induction p with
  | nil => rfl
  | cons e t ih =>
    by_cases he : (e.1 == k') = true
    · have hek : (e.1 == k) = false := by
        have : e.1 = k' := by simpa using he
        subst this
        simpa using hne
      unfold openLookupKey
      rw [List.map_cons, hek]
      simp only [Bool.false_eq_true, if_false]
      rw [List.find?_cons_of_pos _ (by exact he),
        List.find?_cons_of_pos _ (by exact he)]
    · unfold openLookupKey at ih ⊢
      rw [List.map_cons]
      by_cases hek : (e.1 == k) = true
      · rw [if_pos hek, List.find?_cons_of_neg _ (by simpa using he),
          List.find?_cons_of_neg _ (by simpa using he)]
        exact ih
      · rw [if_neg (by simpa using hek), List.find?_cons_of_neg _
          (by simpa using he), List.find?_cons_of_neg _ (by simpa using he)]
        exact ih

theorem openLookupKey_filter_self (p : List (String × Nat)) (k : String) :
    openLookupKey (p.filter (fun (e : String × Nat) => e.1 ≠ k)) k = none := by
  unfold openLookupKey
  rw [List.find?_eq_none.mpr]
  · rfl
  · intro e he
    have := (List.mem_filter.mp he).2
    simp only [ne_eq, decide_eq_true_eq] at this
    simpa using this

theorem openLookupKey_filter_other {p : List (String × Nat)}
    {k k' : String} (hne : k' ≠ k) :
    openLookupKey (p.filter (fun (e : String × Nat) => e.1 ≠ k)) k' =
      openLookupKey p k' := by
  induction p with
  | nil => rfl
  | cons e t ih =>
    by_cases hek : (e.1 ≠ k)
    · unfold openLookupKey at ih ⊢
      rw [List.filter_cons_of_pos (by simpa using hek)]
      by_cases he : (e.1 == k') = true
      · rw [List.find?_cons_of_pos _ (by exact he),
          List.find?_cons_of_pos _ (by exact he)]
      · rw [List.find?_cons_of_neg _ (by simpa using he),
          List.find?_cons_of_neg _ (by simpa using he)]
        exact ih
    · have hek2 : e.1 = k := by
        simpa using hek
      have he : (e.1 == k') = false := by
        subst hek2
        simpa using fun h => hne h.symm
      unfold openLookupKey at ih ⊢
      rw [List.filter_cons_of_neg (by simpa using hek),
        List.find?_cons_of_neg _ (by simp [he])]
      exact ih

theorem map_update_fst (p : List (String × Nat)) (k : String) (r : Nat) :
    (p.map (fun (e : String × Nat) =>
      if e.1 == k then (e.1, r) else e)).map Prod.fst = p.map Prod.fst := by
  rw [List.map_map]
  apply List.map_congr_left
  intro e _
  by_cases he : (e.1 == k) = true
  · have h1 : e.1 = k := by simpa using he
    simp [h1]
  · have h1 : ¬ e.1 = k := by simpa using he
    simp [h1]

theorem filter_ne_length {α β : Type} [DecidableEq α] {l : List (α × β)}
    {a : α} {b : β} (hmem : (a, b) ∈ l)
    (hnd : (l.map Prod.fst).Nodup) :
    (l.filter (fun (e : α × β) => e.1 ≠ a)).length + 1 = l.length := by
  induction l with
  | nil => cases hmem
  | cons e t ih =>
    rw [List.map_cons, List.nodup_cons] at hnd
    rcases List.mem_cons.mp hmem with rfl | hmem2
    · rw [List.filter_cons_of_neg (by simp)]
      have hall : t.filter (fun (e : α × β) => e.1 ≠ a) = t := by
        rw [List.filter_eq_self]
        intro x hx
        have : x.1 ≠ a := by
          intro hxa
          apply hnd.1
          show a ∈ t.map Prod.fst
          rw [← hxa]
          exact List.mem_map_of_mem Prod.fst hx
        simpa using this
      rw [hall]
      simp
    · have hea : e.1 ≠ a := by
        intro hxa
        apply hnd.1
        rw [hxa]
        exact List.mem_map_of_mem Prod.fst hmem2
      rw [List.filter_cons_of_pos (by simpa using hea), List.length_cons,
        List.length_cons, ih hmem2 hnd.2]

end MMFiles

namespace MMFiles

theorem lastRev_append_doc (k k' : String) (pre : List RMarker) (r : Nat) :
    lastRev k' (pre ++ [RMarker.doc k r]) =
      if k = k' then some r else lastRev k' pre := by
  unfold lastRev
  rw [List.foldl_append]
  rfl

theorem lastRev_append_rem (k k' : String) (pre : List RMarker) (r : Nat) :
    lastRev k' (pre ++ [RMarker.rem k r]) =
      if k = k' then none else lastRev k' pre := by
  unfold lastRev
  rw [List.foldl_append]
  rfl

theorem liveAt_iff {ms : List RMarker} {p : Nat} :
    liveAt ms p = true ↔
      ∃ k r, ms.get? p = some (RMarker.doc k r) ∧ lastRev k ms = some r := by
  unfold liveAt
  rcases hg : ms.get? p with _ | m
  · simp
  · cases m with
    | doc k r =>
      simp only [beq_iff_eq]
      constructor
      · intro h
        exact ⟨k, r, rfl, h⟩
      · rintro ⟨k', r', he, hl⟩
        have h1 := Option.some.inj he
        injection h1 with hk1 hr1
        subst hk1
        subst hr1
        exact hl
    | rem k r =>
      simp

theorem goodMarkers_mono {l1 l2 : List RMarker} (h : List.Sublist l1 l2)
    (hg : GoodMarkers l2) : GoodMarkers l1 :=
  ⟨fun m hm => hg.1 m (h.subset hm),
    List.Nodup.sublist (List.Sublist.map RMarker.rev h) hg.2⟩

theorem nodup_length_eq_of_mem_iff {l1 l2 : List Nat} (h1 : l1.Nodup)
    (h2 : l2.Nodup) (h : ∀ x, x ∈ l1 ↔ x ∈ l2) : l1.length = l2.length := by
  have hp : l1.Perm l2 := by
    apply List.perm_of_nodup_nodup_toFinset_eq h1 h2
    apply Finset.ext
    intro a
    simp only [List.mem_toFinset]
    exact h a
  exact hp.length_eq

theorem openInv_nil : OpenInv [] { primaryIndex := [], revisionsCache := [] } := by
  refine ⟨?_, ?_, ?_, ?_, ?_, ?_⟩
  · intro k
    rfl
  · exact List.nodup_nil
  · rfl
  · intro r p
    simp [List.get?]
  · exact List.nodup_nil
  · exact List.nodup_nil

end MMFiles

namespace MMFiles

theorem step_doc_fresh {pre : List RMarker} {s : OpenState} {k : String}
    {r : Nat} (hg : GoodMarkers (pre ++ [RMarker.doc k r]))
    (hinv : OpenInv pre s)
    (hl : openLookupKey s.primaryIndex k = none) :
    OpenInv (pre ++ [RMarker.doc k r])
      { primaryIndex := s.primaryIndex ++ [(k, r)]
        revisionsCache := s.revisionsCache ++ [(r, pre.length)] } := by
  have hlast : lastRev k pre = none := by
    rw [← hinv.look k]
    exact hl
  refine ⟨?_, ?_, ?_, ?_, ?_, ?_⟩
  · intro k'
    show openLookupKey (s.primaryIndex ++ [(k, r)]) k' = _
    rw [lastRev_append_doc]
    by_cases hk : k = k'
    · subst hk
      rw [openLookupKey_append_of_none k r hl, if_pos rfl]
      simp
    · rw [if_neg hk]
      rcases hpk : openLookupKey s.primaryIndex k' with _ | v
      · rw [openLookupKey_append_of_none k r hpk, if_neg (by simp [hk])]
        rw [← hinv.look k', hpk]
      · rw [openLookupKey_append_of_some k r hpk, ← hinv.look k', hpk]
  · show ((s.primaryIndex ++ [(k, r)]).map Prod.fst).Nodup
    rw [List.map_append, List.nodup_append]
    refine ⟨hinv.pnodup, by simp, ?_⟩
    intro x hx hx2
    have hxk : x = k := by simpa using hx2
    subst hxk
    obtain ⟨e, he, hfe⟩ := List.mem_map.mp hx
    have hnk := openLookupKey_none_keys hl e he
    rw [hfe] at hnk
    simp at hnk
  · show (s.primaryIndex ++ [(k, r)]).length =
      (s.revisionsCache ++ [(r, pre.length)]).length
    simp [hinv.plen]
  · intro r' p'
    show (r', p') ∈ s.revisionsCache ++ [(r, pre.length)] ↔ _
    rw [List.mem_append, List.mem_singleton, hinv.cmem r' p']
    constructor
    · rintro (hold | hnew)
      · obtain ⟨k', hget, hlr⟩ := hold
        have hp' : p' < pre.length := by
          obtain ⟨h, _⟩ := List.get?_eq_some.mp hget
          exact h
        refine ⟨k', ?_, ?_⟩
        · rw [List.get?_append hp']
          exact hget
        · rw [lastRev_append_doc]
          have hkk : ¬ k = k' := by
            intro h
            subst h
            rw [hlast] at hlr
            exact Option.noConfusion hlr
          rw [if_neg hkk]
          exact hlr
      · rw [Prod.mk.injEq] at hnew
        obtain ⟨rfl, rfl⟩ := hnew
        refine ⟨k, ?_, ?_⟩
        · rw [List.get?_concat_length]
        · rw [lastRev_append_doc, if_pos rfl]
    · rintro ⟨k', hget, hlr⟩
      have hp' : p' < pre.length + 1 := by
        obtain ⟨h, _⟩ := List.get?_eq_some.mp hget
        simpa using h
      rcases Nat.lt_succ_iff_lt_or_eq.mp hp' with hlt | heq
      · rw [List.get?_append hlt] at hget
        have hkk : ¬ k = k' := by
          intro h
          subst h
          rw [lastRev_append_doc, if_pos rfl] at hlr
          have hr : r' = r := (Option.some.inj hlr).symm
          subst hr
          have hmem : RMarker.doc k r' ∈ pre := List.get?_mem hget
          have hnd := hg.2
          rw [List.map_append, List.nodup_append] at hnd
          exact hnd.2.2 (List.mem_map_of_mem RMarker.rev hmem)
            (by simp [RMarker.rev])
        rw [lastRev_append_doc, if_neg hkk] at hlr
        exact Or.inl ⟨k', hget, hlr⟩
      · subst heq
        rw [List.get?_concat_length] at hget
        have h1 := Option.some.inj hget
        injection h1 with hk1 hr1
        subst hk1
        subst hr1
        exact Or.inr rfl
  · show ((s.revisionsCache ++ [(r, pre.length)]).map Prod.fst).Nodup
    rw [List.map_append, List.nodup_append]
    refine ⟨hinv.crev, by simp, ?_⟩
    intro x hx hx2
    have hxr : x = r := by simpa using hx2
    subst hxr
    obtain ⟨e, he, hfe⟩ := List.mem_map.mp hx
    obtain ⟨k₀, hget, _⟩ := (hinv.cmem e.1 e.2).mp he
    rw [hfe] at hget
    have hmem := List.get?_mem hget
    have hnd := hg.2
    rw [List.map_append, List.nodup_append] at hnd
    exact hnd.2.2 (List.mem_map_of_mem RMarker.rev hmem) (by simp [RMarker.rev])
  · show ((s.revisionsCache ++ [(r, pre.length)]).map Prod.snd).Nodup
    rw [List.map_append, List.nodup_append]
    refine ⟨hinv.cpos, by simp, ?_⟩
    intro x hx hx2
    have hxn : x = pre.length := by simpa using hx2
    subst hxn
    obtain ⟨e, he, hfe⟩ := List.mem_map.mp hx
    obtain ⟨k₀, hget, _⟩ := (hinv.cmem e.1 e.2).mp he
    rw [hfe] at hget
    rw [List.get?_eq_none.mpr (le_refl _)] at hget
    exact Option.noConfusion hget

end MMFiles

namespace MMFiles

theorem step_doc_update {pre : List RMarker} {s : OpenState} {k : String}
    {r oldRev : Nat} (hg : GoodMarkers (pre ++ [RMarker.doc k r]))
    (hinv : OpenInv pre s)
    (hl : openLookupKey s.primaryIndex k = some oldRev) :
    OpenInv (pre ++ [RMarker.doc k r])
      { primaryIndex := s.primaryIndex.map
          (fun (e : String × Nat) => if e.1 == k then (e.1, r) else e)
        revisionsCache :=
          (s.revisionsCache.filter (fun (e : Nat × Nat) => e.1 ≠ oldRev)) ++
            [(r, pre.length)] } := by
  have hlast : lastRev k pre = some oldRev := by
    rw [← hinv.look k]
    exact hl
  have hmemold : RMarker.doc k oldRev ∈ pre := lastRev_mem hlast
  obtain ⟨p₀, hp₀⟩ := List.mem_iff_get?.mp hmemold
  have hcold : (oldRev, p₀) ∈ s.revisionsCache :=
    (hinv.cmem oldRev p₀).mpr ⟨k, hp₀, hlast⟩
  have hsplit := hg.2
  rw [List.map_append, List.nodup_append] at hsplit
  have hndpre := hsplit.1
  have hdisj : ∀ m' ∈ pre, RMarker.rev m' ≠ r := by
    intro m' hm' hr
    exact hsplit.2.2 (List.mem_map_of_mem RMarker.rev hm')
      (by
        rw [show List.map RMarker.rev [RMarker.doc k r] = [r] from rfl]
        simp [hr])
  have hinj : ∀ m1 ∈ pre, ∀ m2 ∈ pre,
      RMarker.rev m1 = RMarker.rev m2 → m1 = m2 :=
    fun m1 h1 m2 h2 => List.inj_on_of_nodup_map hndpre h1 h2
  refine ⟨?_, ?_, ?_, ?_, ?_, ?_⟩
  · intro k'
    show openLookupKey (s.primaryIndex.map
      (fun (e : String × Nat) => if e.1 == k then (e.1, r) else e)) k' = _
    rw [lastRev_append_doc]
    by_cases hk : k = k'
    · subst hk
      rw [if_pos rfl]
      exact openLookupKey_map_update_self r hl
    · rw [if_neg hk, openLookupKey_map_update_other r (fun h => hk h.symm)]
      exact hinv.look k'
  · show ((s.primaryIndex.map
      (fun (e : String × Nat) => if e.1 == k then (e.1, r) else e)).map
        Prod.fst).Nodup
    rw [map_update_fst]
    exact hinv.pnodup
  · show (s.primaryIndex.map
      (fun (e : String × Nat) => if e.1 == k then (e.1, r) else e)).length = _
    have hfl := filter_ne_length hcold hinv.crev
    have hpl := hinv.plen
    simp only [List.length_map, List.length_append, List.length_cons,
      List.length_nil]
    omega
  · intro r' p'
    show (r', p') ∈
      (s.revisionsCache.filter (fun (e : Nat × Nat) => e.1 ≠ oldRev)) ++
        [(r, pre.length)] ↔ _
    rw [List.mem_append, List.mem_singleton, List.mem_filter]
    constructor
    · rintro (⟨hold, hne⟩ | hnew)
      · have hne' : r' ≠ oldRev := by simpa using hne
        obtain ⟨k', hget, hlr⟩ := (hinv.cmem r' p').mp hold
        have hp' : p' < pre.length := by
          obtain ⟨h, _⟩ := List.get?_eq_some.mp hget
          exact h
        have hkk : ¬ k = k' := by
          intro h
          subst h
          rw [hlast] at hlr
          exact hne' (Option.some.inj hlr).symm
        refine ⟨k', ?_, ?_⟩
        · rw [List.get?_append hp']
          exact hget
        · rw [lastRev_append_doc, if_neg hkk]
          exact hlr
      · rw [Prod.mk.injEq] at hnew
        obtain ⟨rfl, rfl⟩ := hnew
        refine ⟨k, ?_, ?_⟩
        · rw [List.get?_concat_length]
        · rw [lastRev_append_doc, if_pos rfl]
    · rintro ⟨k', hget, hlr⟩
      have hp' : p' < pre.length + 1 := by
        obtain ⟨h, _⟩ := List.get?_eq_some.mp hget
        simpa using h
      rcases Nat.lt_succ_iff_lt_or_eq.mp hp' with hlt | heq
      · rw [List.get?_append hlt] at hget
        have hmem' : RMarker.doc k' r' ∈ pre := List.get?_mem hget
        have hkk : ¬ k = k' := by
          intro h
          subst h
          rw [lastRev_append_doc, if_pos rfl] at hlr
          exact hdisj _ hmem' (Option.some.inj hlr).symm
        rw [lastRev_append_doc, if_neg hkk] at hlr
        have hne' : r' ≠ oldRev := by
          intro h
          subst h
          have hm2 := lastRev_mem hlr
          have heq2 := hinj _ hm2 _ hmemold rfl
          injection heq2 with hk2 _
          exact hkk hk2.symm
        exact Or.inl ⟨(hinv.cmem r' p').mpr ⟨k', hget, hlr⟩,
          by simpa using hne'⟩
      · subst heq
        rw [List.get?_concat_length] at hget
        have h1 := Option.some.inj hget
        injection h1 with hk1 hr1
        subst hk1
        subst hr1
        exact Or.inr rfl
  · show (((s.revisionsCache.filter (fun (e : Nat × Nat) => e.1 ≠ oldRev)) ++
      [(r, pre.length)]).map Prod.fst).Nodup
    rw [List.map_append, List.nodup_append]
    refine ⟨List.Nodup.sublist
      (List.Sublist.map Prod.fst (List.filter_sublist _)) hinv.crev,
      by simp, ?_⟩
    intro x hx hx2
    have hxr : x = r := by simpa using hx2
    subst hxr
    obtain ⟨e, he, hfe⟩ := List.mem_map.mp hx
    have heC : e ∈ s.revisionsCache := (List.mem_filter.mp he).1
    obtain ⟨k₀, hget, _⟩ := (hinv.cmem e.1 e.2).mp heC
    rw [hfe] at hget
    exact hdisj _ (List.get?_mem hget) rfl
  · show (((s.revisionsCache.filter (fun (e : Nat × Nat) => e.1 ≠ oldRev)) ++
      [(r, pre.length)]).map Prod.snd).Nodup
    rw [List.map_append, List.nodup_append]
    refine ⟨List.Nodup.sublist
      (List.Sublist.map Prod.snd (List.filter_sublist _)) hinv.cpos,
      by simp, ?_⟩
    intro x hx hx2
    have hxn : x = pre.length := by simpa using hx2
    subst hxn
    obtain ⟨e, he, hfe⟩ := List.mem_map.mp hx
    have heC : e ∈ s.revisionsCache := (List.mem_filter.mp he).1
    obtain ⟨k₀, hget, _⟩ := (hinv.cmem e.1 e.2).mp heC
    rw [hfe] at hget
    rw [List.get?_eq_none.mpr (le_refl _)] at hget
    exact Option.noConfusion hget

end MMFiles

namespace MMFiles

theorem step_rem_none {pre : List RMarker} {s : OpenState} {k : String}
    {r : Nat} (hinv : OpenInv pre s)
    (hl : openLookupKey s.primaryIndex k = none) :
    OpenInv (pre ++ [RMarker.rem k r]) s := by
  have hlast : lastRev k pre = none := by
    rw [← hinv.look k]
    exact hl
  refine ⟨?_, hinv.pnodup, hinv.plen, ?_, hinv.crev, hinv.cpos⟩
  · intro k'
    rw [lastRev_append_rem]
    by_cases hk : k = k'
    · subst hk
      rw [if_pos rfl]
      exact hl
    · rw [if_neg hk]
      exact hinv.look k'
  · intro r' p'
    rw [hinv.cmem r' p']
    constructor
    · rintro ⟨k', hget, hlr⟩
      have hp' : p' < pre.length := by
        obtain ⟨h, _⟩ := List.get?_eq_some.mp hget
        exact h
      refine ⟨k', ?_, ?_⟩
      · rw [List.get?_append hp']
        exact hget
      · rw [lastRev_append_rem]
        have hkk : ¬ k = k' := by
          intro h
          subst h
          rw [hlast] at hlr
          exact Option.noConfusion hlr
        rw [if_neg hkk]
        exact hlr
    · rintro ⟨k', hget, hlr⟩
      have hp' : p' < pre.length + 1 := by
        obtain ⟨h, _⟩ := List.get?_eq_some.mp hget
        simpa using h
      rcases Nat.lt_succ_iff_lt_or_eq.mp hp' with hlt | heq
      · rw [List.get?_append hlt] at hget
        have hkk : ¬ k = k' := by
          intro h
          subst h
          rw [lastRev_append_rem, if_pos rfl] at hlr
          exact Option.noConfusion hlr
        rw [lastRev_append_rem, if_neg hkk] at hlr
        exact ⟨k', hget, hlr⟩
      · subst heq
        rw [List.get?_concat_length] at hget
        exact RMarker.noConfusion (Option.some.inj hget)

theorem step_rem_some {pre : List RMarker} {s : OpenState} {k : String}
    {r oldRev : Nat} (hg : GoodMarkers (pre ++ [RMarker.rem k r]))
    (hinv : OpenInv pre s)
    (hl : openLookupKey s.primaryIndex k = some oldRev) :
    OpenInv (pre ++ [RMarker.rem k r])
      { primaryIndex := s.primaryIndex.filter
          (fun (e : String × Nat) => e.1 ≠ k)
        revisionsCache := s.revisionsCache.filter
          (fun (e : Nat × Nat) => e.1 ≠ oldRev) } := by
  have hlast : lastRev k pre = some oldRev := by
    rw [← hinv.look k]
    exact hl
  have hmemold : RMarker.doc k oldRev ∈ pre := lastRev_mem hlast
  obtain ⟨p₀, hp₀⟩ := List.mem_iff_get?.mp hmemold
  have hcold : (oldRev, p₀) ∈ s.revisionsCache :=
    (hinv.cmem oldRev p₀).mpr ⟨k, hp₀, hlast⟩
  have hkmem : (k, oldRev) ∈ s.primaryIndex := openLookupKey_some_mem hl
  have hndpre : (pre.map RMarker.rev).Nodup := by
    have hsplit := hg.2
    rw [List.map_append, List.nodup_append] at hsplit
    exact hsplit.1
  have hinj : ∀ m1 ∈ pre, ∀ m2 ∈ pre,
      RMarker.rev m1 = RMarker.rev m2 → m1 = m2 :=
    fun m1 h1 m2 h2 => List.inj_on_of_nodup_map hndpre h1 h2
  refine ⟨?_, ?_, ?_, ?_, ?_, ?_⟩
  · intro k'
    show openLookupKey (s.primaryIndex.filter
      (fun (e : String × Nat) => e.1 ≠ k)) k' = _
    rw [lastRev_append_rem]
    by_cases hk : k = k'
    · subst hk
      rw [if_pos rfl]
      exact openLookupKey_filter_self _ _
    · rw [if_neg hk, openLookupKey_filter_other (fun h => hk h.symm)]
      exact hinv.look k'
  · exact List.Nodup.sublist
      (List.Sublist.map Prod.fst (List.filter_sublist _)) hinv.pnodup
  · show (s.primaryIndex.filter (fun (e : String × Nat) => e.1 ≠ k)).length =
      (s.revisionsCache.filter (fun (e : Nat × Nat) => e.1 ≠ oldRev)).length
    have h1 := filter_ne_length hkmem hinv.pnodup
    have h2 := filter_ne_length hcold hinv.crev
    have h3 := hinv.plen
    omega
  · intro r' p'
    show (r', p') ∈
      s.revisionsCache.filter (fun (e : Nat × Nat) => e.1 ≠ oldRev) ↔ _
    rw [List.mem_filter]
    constructor
    · rintro ⟨hold, hne⟩
      have hne' : r' ≠ oldRev := by simpa using hne
      obtain ⟨k', hget, hlr⟩ := (hinv.cmem r' p').mp hold
      have hp' : p' < pre.length := by
        obtain ⟨h, _⟩ := List.get?_eq_some.mp hget
        exact h
      have hkk : ¬ k = k' := by
        intro h
        subst h
        rw [hlast] at hlr
        exact hne' (Option.some.inj hlr).symm
      refine ⟨k', ?_, ?_⟩
      · rw [List.get?_append hp']
        exact hget
      · rw [lastRev_append_rem, if_neg hkk]
        exact hlr
    · rintro ⟨k', hget, hlr⟩
      have hp' : p' < pre.length + 1 := by
        obtain ⟨h, _⟩ := List.get?_eq_some.mp hget
        simpa using h
      rcases Nat.lt_succ_iff_lt_or_eq.mp hp' with hlt | heq
      · rw [List.get?_append hlt] at hget
        have hkk : ¬ k = k' := by
          intro h
          subst h
          rw [lastRev_append_rem, if_pos rfl] at hlr
          exact Option.noConfusion hlr
        rw [lastRev_append_rem, if_neg hkk] at hlr
        have hne' : r' ≠ oldRev := by
          intro h
          subst h
          have hm2 := lastRev_mem hlr
          have heq2 := hinj _ hm2 _ hmemold rfl
          injection heq2 with hk2 _
          exact hkk hk2.symm
        exact ⟨(hinv.cmem r' p').mpr ⟨k', hget, hlr⟩, by simpa using hne'⟩
      · subst heq
        rw [List.get?_concat_length] at hget
        exact RMarker.noConfusion (Option.some.inj hget)
  · exact List.Nodup.sublist
      (List.Sublist.map Prod.fst (List.filter_sublist _)) hinv.crev
  · exact List.Nodup.sublist
      (List.Sublist.map Prod.snd (List.filter_sublist _)) hinv.cpos

end MMFiles

namespace MMFiles

theorem openIterator_step {pre : List RMarker} {s : OpenState} (m : RMarker)
    (hg : GoodMarkers (pre ++ [m])) (hinv : OpenInv pre s) :
    OpenInv (pre ++ [m]) (OpenIterator pre.length m s) := by
  cases m with
  | doc k r =>
    show OpenInv _ (OpenIteratorHandleDocumentMarker pre.length k r s)
    rcases hl : openLookupKey s.primaryIndex k with _ | oldRev
    · simp only [OpenIteratorHandleDocumentMarker, hl]
      exact step_doc_fresh hg hinv hl
    · have hz : ¬ oldRev = 0 := by
        intro h
        subst h
        have hlast : lastRev k pre = some 0 := by
          rw [← hinv.look k]
          exact hl
        have hmem := lastRev_mem hlast
        exact hg.1 _ (List.mem_append_left _ hmem) rfl
      simp only [OpenIteratorHandleDocumentMarker, hl]
      rw [if_neg hz]
      exact step_doc_update hg hinv hl
  | rem k r =>
    show OpenInv _ (OpenIteratorHandleDeletionMarker k s)
    rcases hl : openLookupKey s.primaryIndex k with _ | oldRev
    · simp only [OpenIteratorHandleDeletionMarker, hl]
      exact step_rem_none hinv hl
    · simp only [OpenIteratorHandleDeletionMarker, hl]
      exact step_rem_some hg hinv hl

theorem iterateMarkersFrom_inv (suf : List RMarker) :
    ∀ (pre : List RMarker) (s : OpenState),
      GoodMarkers (pre ++ suf) → OpenInv pre s →
      OpenInv (pre ++ suf) (iterateMarkersFrom pre.length s suf) := by
  induction suf with
  | nil =>
    intro pre s _ hinv
    rw [List.append_nil]
    exact hinv
  | cons m rest ih =>
    intro pre s hg hinv
    have hsub : List.Sublist (pre ++ [m]) (pre ++ m :: rest) :=
      List.Sublist.append_left (List.cons_sublist_cons.mpr
        (List.nil_sublist rest)) pre
    have hstep := openIterator_step m (goodMarkers_mono hsub hg) hinv
    have hg2 : GoodMarkers ((pre ++ [m]) ++ rest) := by
      rw [List.append_assoc, List.singleton_append]
      exact hg
    have hrec := ih (pre ++ [m]) (OpenIterator pre.length m s) hg2 hstep
    rw [List.append_assoc, List.singleton_append] at hrec
    have hlen : (pre ++ [m]).length = pre.length + 1 := by simp
    rw [hlen] at hrec
    exact hrec

theorem cache_length_eq_liveCount {ms : List RMarker} {s : OpenState}
    (hinv : OpenInv ms s) : s.revisionsCache.length = liveCount ms := by
  have h1 : s.revisionsCache.length =
      (s.revisionsCache.map Prod.snd).length := by
    rw [List.length_map]
  rw [h1]
  unfold liveCount
  rw [List.countP_eq_length_filter]
  apply nodup_length_eq_of_mem_iff hinv.cpos
    (List.Nodup.filter _ (List.nodup_range _))
  intro p
  constructor
  · intro hp
    obtain ⟨e, he, hfe⟩ := List.mem_map.mp hp
    obtain ⟨k, hget, hlr⟩ := (hinv.cmem e.1 e.2).mp he
    rw [hfe] at hget
    rw [List.mem_filter]
    refine ⟨?_, ?_⟩
    · rw [List.mem_range]
      obtain ⟨h, _⟩ := List.get?_eq_some.mp hget
      exact h
    · exact liveAt_iff.mpr ⟨k, e.1, hget, hlr⟩
  · intro hp
    rw [List.mem_filter, List.mem_range] at hp
    obtain ⟨hplt, hlive⟩ := hp
    obtain ⟨k, r, hget, hlr⟩ := liveAt_iff.mp hlive
    have hm : (r, p) ∈ s.revisionsCache := (hinv.cmem r p).mpr ⟨k, hget, hlr⟩
    exact List.mem_map_of_mem Prod.snd hm

/-- **C4.** For every finite sequence of insert/update/remove operations
whose markers were appended to the datafiles (revision ids being non-zero
and pairwise distinct, as the revision clock generates them), running
`iterateMarkersOnLoad` over those files rebuilds exactly the final state:
the primary index answers every key lookup with the revision of the key's
last document marker (and `none` for keys whose last marker is a removal or
that never occur), the primary-index size equals the number of live
document markers, and every revision left in the revision cache points at a
valid in-file position, namely that of its own document marker. -/
theorem iterateMarkersOnLoad_rebuilds_final_state
    (files : List (List RMarker))
    (hg : GoodMarkers (files.flatMap id)) :
    (∀ k, openLookupKey (iterateMarkersOnLoad files).primaryIndex k =
        lastRev k (files.flatMap id)) ∧
    (iterateMarkersOnLoad files).primaryIndex.length =
        liveCount (files.flatMap id) ∧
    (∀ e ∈ (iterateMarkersOnLoad files).revisionsCache,
      ∃ k, (files.flatMap id).get? e.2 = some (RMarker.doc k e.1)) := by
  have h0 := iterateMarkersFrom_inv (files.flatMap id) []
    { primaryIndex := [], revisionsCache := [] } (by simpa using hg)
    openInv_nil
  rw [List.nil_append] at h0
  simp only [List.length_nil] at h0
  unfold iterateMarkersOnLoad
  refine ⟨h0.look, ?_, ?_⟩
  · rw [h0.plen]
    exact cache_length_eq_liveCount h0
  · intro e he
    obtain ⟨k, hget, _⟩ := (h0.cmem e.1 e.2).mp he
    exact ⟨k, hget⟩

theorem iterateMarkersOnLoad_rebuilds_final_state_witness :
    GoodMarkers (recFiles0.flatMap id) ∧
    ((∀ k, openLookupKey (iterateMarkersOnLoad recFiles0).primaryIndex k =
        lastRev k (recFiles0.flatMap id)) ∧
      (iterateMarkersOnLoad recFiles0).primaryIndex.length =
        liveCount (recFiles0.flatMap id) ∧
      (∀ e ∈ (iterateMarkersOnLoad recFiles0).revisionsCache,
        ∃ k, (recFiles0.flatMap id).get? e.2 = some (RMarker.doc k e.1))) :=
  ⟨⟨by decide, by decide⟩,
    iterateMarkersOnLoad_rebuilds_final_state recFiles0 ⟨by decide, by decide⟩⟩

end MMFiles
